import Mathlib

/-!
A shallow embedding of the workflow engine of this repository
(`app/models.py`, `app/engine.py`, `app/tools.py`, `app/main.py`):
the data model (graphs, node configurations, edges, run state, trace
entries), the condition evaluator (the fragment of Python expressions
that the conditions of this code base use, evaluated with Python
semantics over the restricted context that
`WorkflowEngine._evaluate_condition` builds), and the traversal loop of
`WorkflowEngine.execute_graph`, together with theorems settling the
specification's claims about them.

Modelling conventions:
* Python dictionaries are association lists kept in insertion order;
  assignment replaces an existing key in place and appends a new one,
  exactly as a Python `dict` behaves.
* A handler (tool) is a function of the state that either returns a
  value or raises; raising is the `Except.error` case.
* In-place mutation is rendered by explicit state passing: every
  function that can mutate the run state returns the new state.
* Wall-clock timestamps and floating-point values are not modelled.
-/

namespace Workflow

/-- A Python value stored in a run's state: `None`, booleans, integers,
strings, lists, and string-keyed dictionaries. -/
inductive Val where
  | none
  | bool (b : Bool)
  | int (i : Int)
  | str (s : String)
  | list (xs : List Val)
  | dict (entries : List (String × Val))
deriving Repr

/-- A run's state (`Dict[str, Any]`): a Python dictionary, modelled as
its insertion-ordered list of key/value pairs. -/
abbrev State := List (String × Val)

/-- `d[k]` on a Python dictionary: the value at the key, if present. -/
def lookupKey {α : Type} : List (String × α) → String → Option α
  | [], _ => Option.none
  | (k, v) :: rest, key => if k = key then some v else lookupKey rest key

/-- `k in d` on a Python dictionary. -/
def containsKey {α : Type} (d : List (String × α)) (key : String) : Bool :=
  (lookupKey d key).isSome

/-- `d[k] = v` on a Python dictionary: replace the value in place if the
key is present (keeping its position), append the pair otherwise. -/
def setKey : State → String → Val → State
  | [], key, v => [(key, v)]
  | (k, w) :: rest, key, v =>
      if k = key then (k, v) :: rest else (k, w) :: setKey rest key v

/-- `d.pop(k)`, the removal part: drop the first pair at the key. -/
def removeKey : State → String → State
  | [], _ => []
  | (k, w) :: rest, key => if k = key then rest else (k, w) :: removeKey rest key

/-- `d.update(e)`: assign every pair of `e` into `d`, in `e`'s order. -/
def updateDict (d : State) (e : State) : State :=
  e.foldl (fun acc kv => setKey acc kv.1 kv.2) d

/-- `d.get(k, dflt)`. -/
def getKeyD (d : State) (key : String) (dflt : Val) : Val :=
  (lookupKey d key).getD dflt

/-- Python truthiness, `bool(v)`. -/
def truthy : Val → Bool
  | .none => false
  | .bool b => b
  | .int i => decide (i ≠ 0)
  | .str s => decide (s ≠ "")
  | .list xs => !xs.isEmpty
  | .dict d => !d.isEmpty

/-- The numeric reading of a value: Python treats `bool` as the integers
0 and 1 wherever a number is expected. -/
def toNum : Val → Option Int
  | .bool b => some (if b then 1 else 0)
  | .int i => some i
  | _ => Option.none

/-- Lexicographic order on strings by code point (Python's `str < str`). -/
def charListLt : List Char → List Char → Bool
  | [], [] => false
  | [], _ :: _ => true
  | _ :: _, [] => false
  | a :: as, b :: bs =>
      if a.toNat < b.toNat then true
      else if b.toNat < a.toNat then false
      else charListLt as bs

/-- Python `<` on strings. -/
def strLt (a b : String) : Bool :=
  charListLt a.toList b.toList

mutual
/-- Python `==` on the modelled values: numbers compare numerically
(booleans count as 0 and 1), strings as strings, `None` equals only
`None`, lists compare pointwise, and any other combination is unequal.
Dictionaries compare by their pair sequences; every dictionary the
engine builds has distinct keys in a fixed order, and no condition in
this code base compares dictionaries, so Python's order-insensitive
dictionary equality is not needed. -/
def pyEq : Val → Val → Bool
  | .none, .none => true
  | .bool a, .bool b => a == b
  | .bool a, .int b => (if a then (1 : Int) else 0) == b
  | .int a, .bool b => a == (if b then (1 : Int) else 0)
  | .int a, .int b => a == b
  | .str a, .str b => a == b
  | .list a, .list b => pyEqList a b
  | .dict a, .dict b => pyEqPairs a b
  | _, _ => false

/-- Pointwise `pyEq` on lists. -/
def pyEqList : List Val → List Val → Bool
  | [], [] => true
  | a :: as, b :: bs => pyEq a b && pyEqList as bs
  | _, _ => false

/-- Pointwise `pyEq` on dictionary pair lists. -/
def pyEqPairs : List (String × Val) → List (String × Val) → Bool
  | [], [] => true
  | (k, v) :: as, (l, w) :: bs => k == l && pyEq v w && pyEqPairs as bs
  | _, _ => false
end

/-- Python `<` on values: numbers (booleans as 0/1) and strings are
ordered; any other combination raises `TypeError`. -/
def pyLt : Val → Val → Except String Bool
  | a, b =>
    match toNum a, toNum b with
    | some x, some y => .ok (decide (x < y))
    | _, _ =>
      match a, b with
      | .str x, .str y => .ok (strLt x y)
      | _, _ => .error "TypeError: unorderable types"

/-- The comparison operators of the condition grammar. -/
inductive CmpOp where
  | lt | le | gt | ge | eq | ne
deriving Repr

/-- Apply a Python comparison operator to two values; the ordering
operators can raise `TypeError`, equality cannot. -/
def pyCmp : CmpOp → Val → Val → Except String Bool
  | .lt, a, b => pyLt a b
  | .gt, a, b => pyLt b a
  | .le, a, b =>
    match pyLt b a with
    | .ok r => .ok (!r)
    | .error e => .error e
  | .ge, a, b =>
    match pyLt a b with
    | .ok r => .ok (!r)
    | .error e => .error e
  | .eq, a, b => .ok (pyEq a b)
  | .ne, a, b => .ok (!pyEq a b)

/-- The modelled fragment of Python expressions: what the conditions of
this code base and of the specification's grammar use — state lookups
(subscript and `.get` with optional default), comparisons, the boolean
combinators, the whitelisted pure functions `len`/`int`/`str`/`bool`,
literals — plus `state.pop`, a state-mutating method call that the
source's `eval`-based evaluator equally accepts.  `state` is the sole
name bound to the run state in the evaluation context built by
`_evaluate_condition` (engine.py 189-207). -/
inductive PyExpr where
  | lit (v : Val)
  | stateName
  | subscript (obj : PyExpr) (idx : PyExpr)
  | getItem (obj : PyExpr) (key : PyExpr)
  | getItemD (obj : PyExpr) (key : PyExpr) (dflt : PyExpr)
  | popItem (key : PyExpr)
  | lenFn (arg : PyExpr)
  | intFn (arg : PyExpr)
  | strFn (arg : PyExpr)
  | boolFn (arg : PyExpr)
  | cmp (op : CmpOp) (a : PyExpr) (b : PyExpr)
  | andE (a : PyExpr) (b : PyExpr)
  | orE (a : PyExpr) (b : PyExpr)
  | notE (a : PyExpr)
deriving Repr

/-- `len(v)`: sizes of strings, lists and dictionaries; `TypeError`
otherwise. -/
def pyLen : Val → Except String Val
  | .str s => .ok (.int s.length)
  | .list xs => .ok (.int xs.length)
  | .dict d => .ok (.int d.length)
  | _ => .error "TypeError: object has no len"

/-- `int(v)`: integers and booleans convert; a string parses as a
decimal integer or raises `ValueError`; anything else raises
`TypeError`.  (Floats are outside the model.) -/
def pyIntFn : Val → Except String Val
  | .int i => .ok (.int i)
  | .bool b => .ok (.int (if b then 1 else 0))
  | .str s =>
    match s.toInt? with
    | some i => .ok (.int i)
    | Option.none => .error "ValueError: invalid literal for int"
  | _ => .error "TypeError: int() argument"

/-- `str(v)` on the scalar values conditions use; rendering containers
is outside the model and raises in it. -/
def pyStrFn : Val → Except String Val
  | .str s => .ok (.str s)
  | .int i => .ok (.str (toString i))
  | .bool b => .ok (.str (if b then "True" else "False"))
  | .none => .ok (.str "None")
  | _ => .error "str() on containers is not modelled"

/-- Evaluate a modelled expression against the run state, Python-style.
The result pairs the computed value with the state as mutated by any
`state.pop` call inside the expression; the error case pairs the
message of the exception the evaluation raises (`KeyError`,
`TypeError`, `ValueError`, `AttributeError`) with the state as already
mutated when the raise happens — `eval` works in place on the caller's
dictionary, so mutations performed by subterms evaluated before the
raising one survive the exception.  The name `state` aliases the live
run-state dictionary, so lookups through it read the state as already
mutated by earlier subterms. -/
def evalExpr : PyExpr → State → Except (String × State) (Val × State)
  | .lit v, s => .ok (v, s)
  | .stateName, s => .ok (.dict s, s)
  | .subscript obj idx, s =>
    match evalExpr obj s with
    | .error e => .error e
    | .ok (o, s₁) =>
      match evalExpr idx s₁ with
      | .error e => .error e
      | .ok (i, s₂) =>
        match
          (match obj, o with
           | .stateName, _ => some s₂
           | _, .dict d => some d
           | _, _ => Option.none : Option State)
        with
        | some d =>
          match i with
          | .str k =>
            match lookupKey d k with
            | some v => .ok (v, s₂)
            | Option.none => .error ("KeyError: " ++ k, s₂)
          | _ => .error ("KeyError", s₂)
        | Option.none => .error ("TypeError: object is not subscriptable", s₂)
  | .getItem obj key, s =>
    match evalExpr obj s with
    | .error e => .error e
    | .ok (o, s₁) =>
      if !(match obj, o with
           | .stateName, _ => true
           | _, .dict _ => true
           | _, _ => false : Bool) then
        .error ("AttributeError: no attribute get", s₁)
      else
        match evalExpr key s₁ with
        | .error e => .error e
        | .ok (k, s₂) =>
          match k with
          | .str kk =>
            .ok ((lookupKey
              (match obj, o with
               | .stateName, _ => s₂
               | _, .dict dd => dd
               | _, _ => []) kk).getD Val.none, s₂)
          | _ => .ok (Val.none, s₂)
  | .getItemD obj key dflt, s =>
    match evalExpr obj s with
    | .error e => .error e
    | .ok (o, s₁) =>
      if !(match obj, o with
           | .stateName, _ => true
           | _, .dict _ => true
           | _, _ => false : Bool) then
        .error ("AttributeError: no attribute get", s₁)
      else
        match evalExpr key s₁ with
        | .error e => .error e
        | .ok (k, s₂) =>
          match evalExpr dflt s₂ with
          | .error e => .error e
          | .ok (dv, s₃) =>
            match k with
            | .str kk =>
              .ok ((lookupKey
                (match obj, o with
                 | .stateName, _ => s₃
                 | _, .dict dd => dd
                 | _, _ => []) kk).getD dv, s₃)
            | _ => .ok (dv, s₃)
  | .popItem key, s =>
    match evalExpr key s with
    | .error e => .error e
    | .ok (k, s₁) =>
      match k with
      | .str kk =>
        match lookupKey s₁ kk with
        | some v => .ok (v, removeKey s₁ kk)
        | Option.none => .error ("KeyError: " ++ kk, s₁)
      | _ => .error ("KeyError", s₁)
  | .lenFn arg, s =>
    match evalExpr arg s with
    | .error e => .error e
    | .ok (v, s₁) =>
      match pyLen v with
      | .error e => .error (e, s₁)
      | .ok r => .ok (r, s₁)
  | .intFn arg, s =>
    match evalExpr arg s with
    | .error e => .error e
    | .ok (v, s₁) =>
      match pyIntFn v with
      | .error e => .error (e, s₁)
      | .ok r => .ok (r, s₁)
  | .strFn arg, s =>
    match evalExpr arg s with
    | .error e => .error e
    | .ok (v, s₁) =>
      match pyStrFn v with
      | .error e => .error (e, s₁)
      | .ok r => .ok (r, s₁)
  | .boolFn arg, s =>
    match evalExpr arg s with
    | .error e => .error e
    | .ok (v, s₁) => .ok (.bool (truthy v), s₁)
  | .cmp op a b, s =>
    match evalExpr a s with
    | .error e => .error e
    | .ok (va, s₁) =>
      match evalExpr b s₁ with
      | .error e => .error e
      | .ok (vb, s₂) =>
        match pyCmp op va vb with
        | .error e => .error (e, s₂)
        | .ok r => .ok (.bool r, s₂)
  | .andE a b, s =>
    match evalExpr a s with
    | .error e => .error e
    | .ok (va, s₁) => if truthy va then evalExpr b s₁ else .ok (va, s₁)
  | .orE a b, s =>
    match evalExpr a s with
    | .error e => .error e
    | .ok (va, s₁) => if truthy va then .ok (va, s₁) else evalExpr b s₁
  | .notE a, s =>
    match evalExpr a s with
    | .error e => .error e
    | .ok (va, s₁) => .ok (.bool (!truthy va), s₁)

/-- The tokens of the condition language. -/
inductive Tok where
  | ident (s : String)
  | num (n : Int)
  | strlit (s : String)
  | opLt | opLe | opGt | opGe | opEq | opNe
  | lparen | rparen | lbrack | rbrack | comma | dot
deriving Repr

/-- A character that can start a Python identifier. -/
def isIdentStart (c : Char) : Bool := c.isAlpha || c = '_'

/-- A character that can continue a Python identifier. -/
def isIdentChar (c : Char) : Bool := c.isAlphanum || c = '_'

/-- A decimal digit string as a number. -/
def digitsToNat (ds : List Char) : Nat :=
  ds.foldl (fun n c => n * 10 + (c.toNat - 48)) 0

/-- Tokenize a condition string.  Each step consumes at least one
character, so fuel equal to the length suffices; running out of fuel or
meeting a character outside the language is a `SyntaxError`. -/
def tokenize : Nat → List Char → Except String (List Tok)
  | 0, _ => .error "SyntaxError: tokenizer out of fuel"
  | _ + 1, [] => .ok []
  | fuel + 1, c :: cs =>
    if c = ' ' then tokenize fuel cs
    else if c.isDigit then do
      let ds := List.takeWhile Char.isDigit (c :: cs)
      let rest := List.dropWhile Char.isDigit (c :: cs)
      let ts ← tokenize fuel rest
      .ok (Tok.num (Int.ofNat (digitsToNat ds)) :: ts)
    else if isIdentStart c then do
      let ds := List.takeWhile isIdentChar (c :: cs)
      let rest := List.dropWhile isIdentChar (c :: cs)
      let ts ← tokenize fuel rest
      .ok (Tok.ident (String.mk ds) :: ts)
    else if c = '\'' || c = '"' then
      let body := List.takeWhile (fun d => d ≠ c) cs
      let rest := List.dropWhile (fun d => d ≠ c) cs
      match rest with
      | [] => .error "SyntaxError: unterminated string literal"
      | _ :: rest' => do
        let ts ← tokenize fuel rest'
        .ok (Tok.strlit (String.mk body) :: ts)
    else
      match c, cs with
      | '<', '=' :: rest => do
        let ts ← tokenize fuel rest
        .ok (Tok.opLe :: ts)
      | '<', rest => do
        let ts ← tokenize fuel rest
        .ok (Tok.opLt :: ts)
      | '>', '=' :: rest => do
        let ts ← tokenize fuel rest
        .ok (Tok.opGe :: ts)
      | '>', rest => do
        let ts ← tokenize fuel rest
        .ok (Tok.opGt :: ts)
      | '=', '=' :: rest => do
        let ts ← tokenize fuel rest
        .ok (Tok.opEq :: ts)
      | '!', '=' :: rest => do
        let ts ← tokenize fuel rest
        .ok (Tok.opNe :: ts)
      | '(', rest => do
        let ts ← tokenize fuel rest
        .ok (Tok.lparen :: ts)
      | ')', rest => do
        let ts ← tokenize fuel rest
        .ok (Tok.rparen :: ts)
      | '[', rest => do
        let ts ← tokenize fuel rest
        .ok (Tok.lbrack :: ts)
      | ']', rest => do
        let ts ← tokenize fuel rest
        .ok (Tok.rbrack :: ts)
      | ',', rest => do
        let ts ← tokenize fuel rest
        .ok (Tok.comma :: ts)
      | '.', rest => do
        let ts ← tokenize fuel rest
        .ok (Tok.dot :: ts)
      | _, _ => .error "SyntaxError: unexpected character"

mutual
/-- `or`-level parsing (lowest precedence). -/
def parseOr : Nat → List Tok → Except String (PyExpr × List Tok)
  | 0, _ => .error "SyntaxError: parser out of fuel"
  | fuel + 1, ts => do
    let (a, ts₁) ← parseAnd fuel ts
    parseOrTail fuel a ts₁

/-- Fold further `or`-operands onto an expression. -/
def parseOrTail : Nat → PyExpr → List Tok → Except String (PyExpr × List Tok)
  | 0, _, _ => .error "SyntaxError: parser out of fuel"
  | fuel + 1, a, Tok.ident "or" :: ts => do
    let (b, ts₁) ← parseAnd fuel ts
    parseOrTail fuel (PyExpr.orE a b) ts₁
  | _ + 1, a, ts => .ok (a, ts)

/-- `and`-level parsing. -/
def parseAnd : Nat → List Tok → Except String (PyExpr × List Tok)
  | 0, _ => .error "SyntaxError: parser out of fuel"
  | fuel + 1, ts => do
    let (a, ts₁) ← parseNot fuel ts
    parseAndTail fuel a ts₁

/-- Fold further `and`-operands onto an expression. -/
def parseAndTail : Nat → PyExpr → List Tok → Except String (PyExpr × List Tok)
  | 0, _, _ => .error "SyntaxError: parser out of fuel"
  | fuel + 1, a, Tok.ident "and" :: ts => do
    let (b, ts₁) ← parseNot fuel ts
    parseAndTail fuel (PyExpr.andE a b) ts₁
  | _ + 1, a, ts => .ok (a, ts)

/-- `not`-level parsing: `not` binds looser than comparisons in
Python. -/
def parseNot : Nat → List Tok → Except String (PyExpr × List Tok)
  | 0, _ => .error "SyntaxError: parser out of fuel"
  | fuel + 1, Tok.ident "not" :: ts => do
    let (a, ts₁) ← parseNot fuel ts
    .ok (PyExpr.notE a, ts₁)
  | fuel + 1, ts => parseCmp fuel ts

/-- A single (unchained) comparison, or a bare postfix expression. -/
def parseCmp : Nat → List Tok → Except String (PyExpr × List Tok)
  | 0, _ => .error "SyntaxError: parser out of fuel"
  | fuel + 1, ts => do
    let (a, ts₁) ← parsePostfix fuel ts
    match ts₁ with
    | Tok.opLt :: ts₂ => do
      let (b, ts₃) ← parsePostfix fuel ts₂
      .ok (PyExpr.cmp CmpOp.lt a b, ts₃)
    | Tok.opLe :: ts₂ => do
      let (b, ts₃) ← parsePostfix fuel ts₂
      .ok (PyExpr.cmp CmpOp.le a b, ts₃)
    | Tok.opGt :: ts₂ => do
      let (b, ts₃) ← parsePostfix fuel ts₂
      .ok (PyExpr.cmp CmpOp.gt a b, ts₃)
    | Tok.opGe :: ts₂ => do
      let (b, ts₃) ← parsePostfix fuel ts₂
      .ok (PyExpr.cmp CmpOp.ge a b, ts₃)
    | Tok.opEq :: ts₂ => do
      let (b, ts₃) ← parsePostfix fuel ts₂
      .ok (PyExpr.cmp CmpOp.eq a b, ts₃)
    | Tok.opNe :: ts₂ => do
      let (b, ts₃) ← parsePostfix fuel ts₂
      .ok (PyExpr.cmp CmpOp.ne a b, ts₃)
    | _ => .ok (a, ts₁)

/-- An atom followed by its subscript/method trailers. -/
def parsePostfix : Nat → List Tok → Except String (PyExpr × List Tok)
  | 0, _ => .error "SyntaxError: parser out of fuel"
  | fuel + 1, ts => do
    let (a, ts₁) ← parseAtom fuel ts
    parseTrailers fuel a ts₁

/-- Subscripts `e[k]` and the method calls `e.get(k[, d])` and
`state.pop(k)` (the latter only on the name `state`, the sole mutable
binding of the evaluation context). -/
def parseTrailers : Nat → PyExpr → List Tok → Except String (PyExpr × List Tok)
  | 0, _, _ => .error "SyntaxError: parser out of fuel"
  | fuel + 1, e, Tok.lbrack :: ts => do
    let (i, ts₁) ← parseOr fuel ts
    match ts₁ with
    | Tok.rbrack :: ts₂ => parseTrailers fuel (PyExpr.subscript e i) ts₂
    | _ => .error "SyntaxError: expected closing bracket"
  | fuel + 1, e, Tok.dot :: Tok.ident "get" :: Tok.lparen :: ts => do
    let (k, ts₁) ← parseOr fuel ts
    match ts₁ with
    | Tok.rparen :: ts₂ => parseTrailers fuel (PyExpr.getItem e k) ts₂
    | Tok.comma :: ts₂ => do
      let (d, ts₃) ← parseOr fuel ts₂
      match ts₃ with
      | Tok.rparen :: ts₄ => parseTrailers fuel (PyExpr.getItemD e k d) ts₄
      | _ => .error "SyntaxError: expected closing parenthesis"
    | _ => .error "SyntaxError: expected closing parenthesis"
  | fuel + 1, e, Tok.dot :: Tok.ident "pop" :: Tok.lparen :: ts =>
    match e with
    | PyExpr.stateName => do
      let (k, ts₁) ← parseOr fuel ts
      match ts₁ with
      | Tok.rparen :: ts₂ => parseTrailers fuel (PyExpr.popItem k) ts₂
      | _ => .error "SyntaxError: expected closing parenthesis"
    | _ => .error "pop is modelled on the name state only"
  | _ + 1, e, ts => .ok (e, ts)

/-- Literals, the name `state`, the whitelisted function calls, and
parenthesized expressions.  Any other name is outside the model, as the
corresponding `NameError` of the source is caught and yields `False`
just as a parse error does here. -/
def parseAtom : Nat → List Tok → Except String (PyExpr × List Tok)
  | 0, _ => .error "SyntaxError: parser out of fuel"
  | _ + 1, Tok.num n :: ts => .ok (PyExpr.lit (Val.int n), ts)
  | _ + 1, Tok.strlit s :: ts => .ok (PyExpr.lit (Val.str s), ts)
  | fuel + 1, Tok.ident name :: ts =>
    match name, ts with
    | "True", _ => .ok (PyExpr.lit (Val.bool true), ts)
    | "False", _ => .ok (PyExpr.lit (Val.bool false), ts)
    | "None", _ => .ok (PyExpr.lit Val.none, ts)
    | "state", _ => .ok (PyExpr.stateName, ts)
    | "len", Tok.lparen :: ts' => do
      let (a, ts₁) ← parseOr fuel ts'
      match ts₁ with
      | Tok.rparen :: ts₂ => .ok (PyExpr.lenFn a, ts₂)
      | _ => .error "SyntaxError: expected closing parenthesis"
    | "int", Tok.lparen :: ts' => do
      let (a, ts₁) ← parseOr fuel ts'
      match ts₁ with
      | Tok.rparen :: ts₂ => .ok (PyExpr.intFn a, ts₂)
      | _ => .error "SyntaxError: expected closing parenthesis"
    | "str", Tok.lparen :: ts' => do
      let (a, ts₁) ← parseOr fuel ts'
      match ts₁ with
      | Tok.rparen :: ts₂ => .ok (PyExpr.strFn a, ts₂)
      | _ => .error "SyntaxError: expected closing parenthesis"
    | "bool", Tok.lparen :: ts' => do
      let (a, ts₁) ← parseOr fuel ts'
      match ts₁ with
      | Tok.rparen :: ts₂ => .ok (PyExpr.boolFn a, ts₂)
      | _ => .error "SyntaxError: expected closing parenthesis"
    | _, _ => .error "SyntaxError: unexpected name"
  | fuel + 1, Tok.lparen :: ts => do
    let (a, ts₁) ← parseOr fuel ts
    match ts₁ with
    | Tok.rparen :: ts₂ => .ok (a, ts₂)
    | _ => .error "SyntaxError: expected closing parenthesis"
  | _ + 1, _ => .error "SyntaxError: unexpected token"
end

/-- Parse a condition string into the modelled fragment; a string
outside the fragment is a `SyntaxError`, which `evaluateCondition` —
like the source's caught `SyntaxError`/`NameError` — turns into
`False`. -/
def parseCond (condition : String) : Except String PyExpr := do
  let toks ← tokenize (condition.length + 1) condition.toList
  let (e, rest) ← parseOr (8 * (toks.length + 1)) toks
  match rest with
  | [] => .ok e
  | _ => .error "SyntaxError: trailing tokens"

/-- The un-caught evaluation pipeline inside `_evaluate_condition`'s
`try` block: parse the condition string and evaluate it; the error case
is the exception `eval(condition, context)` would raise, paired with
the state at the moment of the raise (a parse error precedes any
evaluation, so it carries the supplied state untouched). -/
def evalCondExc (condition : String) (state : State) :
    Except (String × State) (Val × State) :=
  match parseCond condition with
  | .error e => .error (e, state)
  | .ok e => evalExpr e state

/-- `WorkflowEngine._evaluate_condition` (engine.py 181-212): evaluate a
condition string against the state inside a catch-all that turns every
parse or evaluation error into `False`; a successful result is coerced
with `bool(...)`.  The function is total — no error escapes to the
caller.  The returned state carries the mutations that `state.pop`
calls inside the expression performed on the supplied state; since
`eval` mutates the caller's dictionary in place, mutations performed
before a raise survive the caught exception, so the error branch hands
on the state the raise left behind, not the pre-evaluation one. -/
def evaluateCondition (condition : String) (state : State) : Bool × State :=
  match evalCondExc condition state with
  | .error (_, s') => (false, s')
  | .ok (v, s') => (truthy v, s')

/-- The state component of an evaluation result, raised or not: the
state of the run after the expression has executed. -/
def resState : Except (String × State) (Val × State) → State
  | .error (_, s) => s
  | .ok (_, s) => s

/-- An expression with no `state.pop` call anywhere inside: the fragment
the specification's condition grammar (§4.2) actually describes. -/
def popFree : PyExpr → Bool
  | .lit _ => true
  | .stateName => true
  | .subscript o i => popFree o && popFree i
  | .getItem o k => popFree o && popFree k
  | .getItemD o k d => popFree o && popFree k && popFree d
  | .popItem _ => false
  | .lenFn a => popFree a
  | .intFn a => popFree a
  | .strFn a => popFree a
  | .boolFn a => popFree a
  | .notE a => popFree a
  | .cmp _ a b => popFree a && popFree b
  | .andE a b => popFree a && popFree b
  | .orE a b => popFree a && popFree b

/-- A condition string that cannot mutate the state: if it parses at
all, its parse is `state.pop`-free.  (Executable, so concrete
conditions are checked by evaluation.) -/
def condSafe (condition : String) : Bool :=
  match parseCond condition with
  | .ok e => popFree e
  | .error _ => true

/-- `NodeType` (models.py 6-9). -/
inductive NodeType where
  | standard
  | conditional
  | loop
deriving Repr, DecidableEq

/-- `Node` (models.py 12-18): a node's configuration. -/
structure Node where
  name : String
  type : NodeType := NodeType.standard
  tool : Option String := Option.none
  condition : Option String := Option.none
  loop_condition : Option String := Option.none
  max_iterations : Int := 10
deriving Repr

/-- An entry of the `edges` dictionary (`Dict[str, Any]`,
models.py 23): a bare target string, a dictionary whose string keys map
to a target name or `null` (covering both the
`{"condition", "true", "false"} ` form and the multi-guard form, kept
in insertion order), or a value of any other type, which
`_get_next_node`'s `isinstance` dispatch falls through to `None` on. -/
inductive Edge where
  | direct (target : String)
  | branch (entries : List (String × Option String))
  | other
deriving Repr

/-- `GraphDefinition` (models.py 21-25).  No validator is declared on
it: any well-typed combination of fields is accepted. -/
structure GraphDefinition where
  nodes : List String
  edges : List (String × Edge)
  start_node : String
  node_configs : Option (List (String × Node)) := Option.none
deriving Repr

/-- `GraphCreateRequest` (models.py 28-32): same fields as
`GraphDefinition`. -/
structure GraphCreateRequest where
  nodes : List String
  edges : List (String × Edge)
  start_node : String
  node_configs : Option (List (String × Node)) := Option.none
deriving Repr

/-- `ExecutionLog` (models.py 45-50), one trace entry.  The wall-clock
`timestamp` field is not modelled. -/
structure ExecutionLog where
  node : String
  state_before : State
  state_after : State
  output : Option Val
deriving Repr

/-- A step handler (a tool of `tools.py`): a function of the current
state that returns a value — a dictionary to be merged, or an opaque
output — or raises (the `Except.error` case).  The source invokes sync
and async handlers uniformly, so one function type covers both. -/
def Handler : Type := State → Except String Val

/-- `ToolRegistry._tools` (tools.py 10): the name-to-handler map. -/
abbrev Registry := List (String × Handler)

/-- `ToolRegistry.get` (tools.py 17-21): `some` handler, or `none`
standing for the `ValueError` the source raises on an unknown name
(caught by `_execute_node`'s handler boundary). -/
def regGet (reg : Registry) (name : String) : Option Handler :=
  lookupKey reg name

/-- `WorkflowEngine._get_node_config` (engine.py 73-83): the explicit
configuration when one is present, else a default `standard` node whose
tool name is the node name. -/
def getNodeConfig (graph : GraphDefinition) (nodeName : String) : Node :=
  match graph.node_configs with
  | some configs =>
    match lookupKey configs nodeName with
    | some cfg => cfg
    | Option.none =>
      { name := nodeName, type := NodeType.standard, tool := some nodeName }
  | Option.none =>
    { name := nodeName, type := NodeType.standard, tool := some nodeName }

/-- The tool-name resolution `node_config.tool or node_name`
(engine.py 104): Python `or`, so a `None` or empty tool string falls
back to the node name. -/
def toolNameOf (nodeConfig : Node) (nodeName : String) : String :=
  match nodeConfig.tool with
  | some t => if t = "" then nodeName else t
  | Option.none => nodeName

/-- `WorkflowEngine._execute_node` (engine.py 85-124): resolve the tool
name, look it up, invoke it, merge a returned dictionary into the
state or keep any other result as the step's output.  Every exception —
the registry's unknown-tool `ValueError` included — is caught and
recorded as `state["_error"]`. -/
def executeNode (nodeName : String) (nodeConfig : Node) (reg : Registry)
    (state : State) : State × Option Val :=
  let toolName := toolNameOf nodeConfig nodeName
  match regGet reg toolName with
  | Option.none =>
    (setKey state "_error"
      (.str ("Error in node '" ++ nodeName ++ "': Tool '" ++ toolName ++
        "' not found in registry")), Option.none)
  | some tool =>
    match tool state with
    | .error e =>
      (setKey state "_error" (.str ("Error in node '" ++ nodeName ++ "': " ++ e)),
        Option.none)
    | .ok (Val.dict result) => (updateDict state result, Option.none)
    | .ok result => (state, some result)

/-- Truthiness of an `Optional[str]` field (Python: `None` and the
empty string are falsy). -/
def condTruthy : Option String → Bool
  | some c => decide (c ≠ "")
  | Option.none => false

/-- A condition taken straight from a dictionary slot, where the stored
value may be `null`: `eval(None, ...)` raises a `TypeError` that the
evaluator's catch-all turns into `False`. -/
def evaluateConditionSlot : Option String → State → Bool × State
  | some c, s => evaluateCondition c s
  | Option.none, s => (false, s)

/-- The `for key, next_node in edge.items()` loop of `_get_next_node`
(engine.py 174-177) and the `return None` after it: guards are
evaluated in insertion order, the first true one returns its target
(which may itself be `null`, ending the run), and no later guard is
evaluated. -/
def resolveMulti : List (String × Option String) → State → Option String × State
  | [], s => (Option.none, s)
  | (key, nextNode) :: rest, s =>
    if (evaluateCondition key s).1 then (nextNode, (evaluateCondition key s).2)
    else resolveMulti rest (evaluateCondition key s).2

/-- The loop-branch test of `_get_next_node` (engine.py 142):
`node_config.type == NodeType.LOOP or node_config.loop_condition`. -/
def isLoopish (nodeConfig : Node) : Bool :=
  nodeConfig.type = NodeType.loop || condTruthy nodeConfig.loop_condition

/-- The edge-resolution part of `_get_next_node` (engine.py 155-179):
no edge ends the run; a string edge is followed unconditionally; a
dictionary edge with a `"condition"` key picks the `"true"`/`"false"`
slot (absent slots are `None`); any other dictionary is the ordered
multi-guard form; an edge of any other type falls through to `None`. -/
def resolveEdge (graph : GraphDefinition) (currentNode : String) (state : State) :
    Option String × State :=
  match lookupKey graph.edges currentNode with
  | Option.none => (Option.none, state)
  | some (Edge.direct target) => (some target, state)
  | some (Edge.branch entries) =>
    if containsKey entries "condition" then
      if (evaluateConditionSlot ((lookupKey entries "condition").join) state).1 then
        ((lookupKey entries "true").join,
          (evaluateConditionSlot ((lookupKey entries "condition").join) state).2)
      else
        ((lookupKey entries "false").join,
          (evaluateConditionSlot ((lookupKey entries "condition").join) state).2)
    else resolveMulti entries state
  | some Edge.other => (Option.none, state)

/-- `WorkflowEngine._get_next_node` (engine.py 126-179).  For a loop
node (kind `loop`, or a truthy `loop_condition`), `state["iteration"]`
(default 0) is compared against the iteration cap: at or above the cap
the loop branch is skipped regardless of the loop condition; below it a
true loop condition revisits the same node.  The comparison
`iteration >= node_config.max_iterations` is outside any
try/except: on a non-numeric `state["iteration"]` it raises a
`TypeError` that propagates out of the engine — the `Except.error`
case. -/
def getNextNode (graph : GraphDefinition) (currentNode : String)
    (nodeConfig : Node) (state : State) : Except String (Option String × State) :=
  if isLoopish nodeConfig then
    match toNum (getKeyD state "iteration" (Val.int 0)) with
    | Option.none => .error "TypeError: iteration is not comparable with int"
    | some iteration =>
      if iteration ≥ nodeConfig.max_iterations then
        .ok (resolveEdge graph currentNode state)
      else
        match nodeConfig.loop_condition with
        | some lc =>
          if lc = "" then .ok (resolveEdge graph currentNode state)
          else
            if (evaluateCondition lc state).1 then
              .ok (some currentNode, (evaluateCondition lc state).2)
            else .ok (resolveEdge graph currentNode (evaluateCondition lc state).2)
        | Option.none => .ok (resolveEdge graph currentNode state)
  else .ok (resolveEdge graph currentNode state)

/-- `copy.deepcopy` on a state value: the embedding's states are
immutable values, so a deep copy is the value itself. -/
def deepcopy (state : State) : State := state

/-- The `while current_node:` loop of `WorkflowEngine.execute_graph`
(engine.py 41-69).  The Python loop counts the nodes visited so far in
`visited_nodes` and breaks once `len(visited_nodes) > 100`; the
embedding renders that counter as the number of visits that remain
under the ceiling, `remaining = 101 - len(visited_nodes)`, so that the
recursion is structural: the body runs while `remaining` is positive,
and at `remaining = 0` the runaway-loop guard writes `state["_error"]`
and breaks.  `None` or the empty string (both falsy in Python) end the
loop first, exactly as `while current_node:` does; the produced trace
entries are returned in execution order. -/
def execGo (graph : GraphDefinition) (reg : Registry) :
    Option String → State → Nat → Except String (State × List ExecutionLog)
  | Option.none, state, _ => .ok (state, [])
  | some n, state, 0 =>
    if n = "" then .ok (state, [])
    else .ok (setKey state "_error" (.str "Maximum iteration limit reached"), [])
  | some n, state, r + 1 =>
    if n = "" then .ok (state, [])
    else
      match getNextNode graph n (getNodeConfig graph n)
          (executeNode n (getNodeConfig graph n) reg state).1 with
      | .error e => .error e
      | .ok (next, state'') =>
        match execGo graph reg next state'' r with
        | .error e => .error e
        | .ok (finalState, rest) =>
          .ok (finalState,
            { node := n, state_before := state,
              state_after := (executeNode n (getNodeConfig graph n) reg state).1,
              output := (executeNode n (getNodeConfig graph n) reg state).2 } :: rest)

/-- `WorkflowEngine.execute_graph` (engine.py 18-71): deep-copy the
initial state and traverse from the start node with the full visit
budget of 101 (no node visited yet). -/
def executeGraph (graph : GraphDefinition) (reg : Registry)
    (initial_state : State) : Except String (State × List ExecutionLog) :=
  execGo graph reg (some graph.start_node) (deepcopy initial_state) 101

/-- The status computation of `run_graph` (main.py 107):
`"completed"` exactly when the error marker is absent from the final
state. -/
def runStatus (finalState : State) : String :=
  if containsKey finalState "_error" then "failed" else "completed"

/-- `run_graph` (main.py 77-118), after storage lookup: execute the
graph and report final state, execution log and status.  An exception
escaping the engine (the `Except.error` case) reaches the endpoint's
blanket handler instead and no status is assigned. -/
def runGraph (graph : GraphDefinition) (reg : Registry) (initial_state : State) :
    Except String (State × List ExecutionLog × String) :=
  match executeGraph graph reg initial_state with
  | .error e => .error e
  | .ok (finalState, log) => .ok (finalState, log, runStatus finalState)

/-- `create_graph` (main.py 42-74): build a `GraphDefinition` from the
request and store it.  Beyond the field typing that pydantic checks —
and that the embedding's types enforce by construction — no validation
is performed: `GraphDefinition` (models.py 21-25) declares no
validator, so membership of the start node or of edge targets in
`nodes` is never examined and creation always succeeds. -/
def createGraph (request : GraphCreateRequest) : Except String GraphDefinition :=
  .ok { nodes := request.nodes, edges := request.edges,
        start_node := request.start_node, node_configs := request.node_configs }

/-- An edge whose condition strings are all `condSafe`: its evaluation
cannot mutate the state. -/
def edgeSafe : Edge → Bool
  | .direct _ => true
  | .other => true
  | .branch entries =>
    (match (lookupKey entries "condition").join with
     | some c => condSafe c
     | Option.none => true) &&
    entries.all (fun p => condSafe p.1)

/-- A graph all of whose condition strings — edge conditions, multi
guards and configured loop conditions — are `condSafe`.  Every graph
whose conditions stay inside the specification's pop-free expression
grammar satisfies it. -/
def graphSafe (g : GraphDefinition) : Bool :=
  g.edges.all (fun p => edgeSafe p.2) &&
  (match g.node_configs with
   | some cfgs =>
     cfgs.all (fun p =>
       match p.2.loop_condition with
       | some lc => condSafe lc
       | Option.none => true)
   | Option.none => true)

/-- The integer reading of `state.get("iteration", 0)`, when it is a
number (engine.py 143). -/
def iterInt (s : State) : Option Int :=
  toNum (getKeyD s "iteration" (Val.int 0))

/-- The length of the leading consecutive block of visits to one node
in a trace. -/
def leadVisits (nodeName : String) (log : List ExecutionLog) : Nat :=
  (log.takeWhile (fun e => e.node == nodeName)).length

/-- `AllFalse guards s s'`: evaluated left to right starting from state
`s`, every guard of the list evaluates to `False`, threading the state
to `s'` — the premise of the multi-branch no-match case. -/
inductive AllFalse : List (String × Option String) → State → State → Prop where
  | nil (s : State) : AllFalse [] s s
  | cons (k : String) (t : Option String) (rest : List (String × Option String))
      (s s' : State) (hk : (evaluateCondition k s).1 = false)
      (hrest : AllFalse rest (evaluateCondition k s).2 s') :
      AllFalse ((k, t) :: rest) s s'

/-! Concrete fixtures used by the witnesses and counterexamples. -/

/-- A two-node plain cycle: `P -> Q -> P` with `Direct` edges. -/
def cycleGraph : GraphDefinition :=
  { nodes := ["P", "Q"],
    edges := [("P", Edge.direct "Q"), ("Q", Edge.direct "P")],
    start_node := "P" }

/-- Handlers for the cycle: both nodes return an opaque `None`. -/
def cycleReg : Registry :=
  [("P", fun _ => .ok Val.none), ("Q", fun _ => .ok Val.none)]

/-- A loop node with cap 1 whose handler never touches
`state["iteration"]`, under an always-true loop condition. -/
def runawayLoopGraph : GraphDefinition :=
  { nodes := ["L"], edges := [], start_node := "L",
    node_configs := some [("L",
      { name := "L", type := NodeType.loop, tool := some "sit",
        loop_condition := some "True", max_iterations := 1 })] }

/-- The never-incrementing handler of the runaway loop. -/
def runawayLoopReg : Registry :=
  [("sit", fun _ => .ok Val.none)]

/-- A loop node with cap 3 whose handler increments
`state["iteration"]` by one on every visit. -/
def cappedLoopGraph : GraphDefinition :=
  { nodes := ["L"], edges := [], start_node := "L",
    node_configs := some [("L",
      { name := "L", type := NodeType.loop, tool := some "inc",
        loop_condition := some "True", max_iterations := 3 })] }

/-- The incrementing handler of the capped loop. -/
def cappedLoopReg : Registry :=
  [("inc", fun s =>
    .ok (Val.dict [("iteration", Val.int ((iterInt s).getD 0 + 1))]))]

/-- The trace of the capped-loop run. -/
def cappedLoopLog : List ExecutionLog :=
  match execGo cappedLoopGraph cappedLoopReg (some "L") [] 101 with
  | .ok (_, log) => log
  | .error _ => []

/-- The final state of the capped-loop run. -/
def cappedLoopFinal : State :=
  match execGo cappedLoopGraph cappedLoopReg (some "L") [] 101 with
  | .ok (fs, _) => fs
  | .error _ => []

/-- `X -> Y` with a raising handler at `X`. -/
def raiseGraph : GraphDefinition :=
  { nodes := ["X", "Y"],
    edges := [("X", Edge.direct "Y")],
    start_node := "X" }

/-- The registry of `raiseGraph`: `X` raises, `Y` returns `None`. -/
def raiseReg : Registry :=
  [("X", fun _ => .error "boom"), ("Y", fun _ => .ok Val.none)]

/-- The final state of the raising run. -/
def raiseRunFinal : State :=
  match executeGraph raiseGraph raiseReg [] with
  | .ok (fs, _) => fs
  | .error _ => []

/-- The trace of the raising run. -/
def raiseRunLog : List ExecutionLog :=
  match executeGraph raiseGraph raiseReg [] with
  | .ok (_, log) => log
  | .error _ => []

/-- A graph with two terminal nodes used to exercise the merge step:
`M`'s handler returns a mapping, `O`'s an opaque string. -/
def mergeGraph : GraphDefinition :=
  { nodes := ["M", "O"], edges := [], start_node := "M" }

/-- Registry for `mergeGraph`. -/
def mergeReg : Registry :=
  [("M", fun _ => .ok (Val.dict [("v", Val.int 2), ("w", Val.int 3)])),
   ("O", fun _ => .ok (Val.str "done"))]

/-- A creation request whose start node is not a member of its node set
and whose edge target dangles. -/
def badRequest : GraphCreateRequest :=
  { nodes := ["a"],
    edges := [("a", Edge.direct "ghost")],
    start_node := "ghost" }

/-- The graph that `createGraph` builds from `badRequest`. -/
def badGraph : GraphDefinition :=
  { nodes := ["a"],
    edges := [("a", Edge.direct "ghost")],
    start_node := "ghost" }

/-- An empty registry: the bad graph's nodes have no tools. -/
def emptyReg : Registry := []

/-- A node with a three-guard multi-branch edge; the third guard would
mutate the state if it were ever evaluated. -/
def multiGraph : GraphDefinition :=
  { nodes := ["S", "X", "Y", "Z"],
    edges := [("S", Edge.branch
      [("state['a'] == 1", some "X"),
       ("state['a'] == 2", some "Y"),
       ("state.pop('secret') == 0", some "Z")])],
    start_node := "S" }

/-- A single terminal node `A` whose handler returns an opaque value. -/
def soloGraph : GraphDefinition :=
  { nodes := ["A"], edges := [], start_node := "A" }

/-- Registry for `soloGraph`. -/
def soloReg : Registry :=
  [("A", fun _ => .ok Val.none)]

/-! Dictionary lemmas. -/

/-- After `d[k] = v`, looking up `k` yields `v`. -/
theorem lookupKey_setKey_self (s : State) (k : String) (v : Val) :
    lookupKey (setKey s k v) k = some v := by
  induction s with
  | nil => simp [setKey, lookupKey]
  | cons p rest ih =>
    obtain ⟨k', w⟩ := p
    by_cases h : k' = k
    · simp [setKey, h, lookupKey]
    · simp [setKey, h, lookupKey, ih]

/-- `d[key] = v` does not change any other key. -/
theorem lookupKey_setKey_ne (s : State) (key k : String) (v : Val)
    (h : k ≠ key) : lookupKey (setKey s key v) k = lookupKey s k := by
  induction s with
  | nil =>
    have hne : ¬key = k := fun hh => h hh.symm
    simp [setKey, lookupKey, hne]
  | cons p rest ih =>
    obtain ⟨k', w⟩ := p
    have hne : ¬key = k := fun hh => h hh.symm
    by_cases hk : k' = key
    · simp [setKey, hk, lookupKey, hne]
    · by_cases hkk : k' = k
      · simp [setKey, hk, lookupKey, hkk, h]
      · simp [setKey, hk, lookupKey, hkk, ih]

/-- A key absent from a pair list looks up to nothing. -/
theorem lookupKey_eq_none_of_not_mem {α : Type} (d : List (String × α))
    (k : String) (h : k ∉ d.map Prod.fst) : lookupKey d k = Option.none := by
  induction d with
  | nil => simp [lookupKey]
  | cons p rest ih =>
    obtain ⟨k', v⟩ := p
    simp only [List.map_cons, List.mem_cons] at h
    push_neg at h
    have hne : ¬k' = k := fun hh => h.1 hh.symm
    simp [lookupKey, hne, ih h.2]

/-- A successful lookup comes from a member pair. -/
theorem lookupKey_mem {α : Type} (d : List (String × α)) (k : String)
    (v : α) (h : lookupKey d k = some v) : (k, v) ∈ d := by
  induction d with
  | nil => simp [lookupKey] at h
  | cons p rest ih =>
    obtain ⟨k', w⟩ := p
    by_cases hk : k' = k
    · subst hk
      simp [lookupKey] at h
      simp [h]
    · simp [lookupKey, hk] at h
      exact List.mem_cons_of_mem _ (ih h)

/-- `d.update(e)` does not change keys absent from `e`. -/
theorem lookupKey_updateDict_not_mem (e : State) :
    ∀ (s : State) (k : String), lookupKey e k = Option.none →
      lookupKey (updateDict s e) k = lookupKey s k := by
  induction e with
  | nil => intro s k _; rfl
  | cons p rest ih =>
    intro s k h
    obtain ⟨k', v⟩ := p
    by_cases hk : k' = k
    · subst hk
      simp [lookupKey] at h
    · have hrest : lookupKey rest k = Option.none := by
        simpa [lookupKey, hk] using h
      have hstep : updateDict s ((k', v) :: rest) = updateDict (setKey s k' v) rest := rfl
      rw [hstep, ih (setKey s k' v) k hrest,
        lookupKey_setKey_ne _ _ _ _ (fun hh => hk hh.symm)]

/-- `d.update(e)` stores every pair of `e` (keys of `e` distinct, as a
Python dict's keys are), overwriting an existing key. -/
theorem lookupKey_updateDict_mem (e : State) :
    ∀ (s : State) (k : String) (v : Val), lookupKey e k = some v →
      (e.map Prod.fst).Nodup → lookupKey (updateDict s e) k = some v := by
  induction e with
  | nil => intro s k v hk _; simp [lookupKey] at hk
  | cons p rest ih =>
    intro s k v hk hnd
    obtain ⟨k', w⟩ := p
    simp only [List.map_cons, List.nodup_cons] at hnd
    have hstep : updateDict s ((k', w) :: rest) = updateDict (setKey s k' w) rest := rfl
    by_cases hkk : k' = k
    · subst hkk
      have hv : w = v := by simpa [lookupKey] using hk
      subst hv
      have hnone : lookupKey rest k' = Option.none :=
        lookupKey_eq_none_of_not_mem _ _ hnd.1
      rw [hstep, lookupKey_updateDict_not_mem rest (setKey s k' w) k' hnone,
        lookupKey_setKey_self]
    · have hrest : lookupKey rest k = some v := by
        simpa [lookupKey, hkk] using hk
      rw [hstep]
      exact ih (setKey s k' w) k v hrest hnd.2

/-- `d[key] = v` keeps every key that was present. -/
theorem containsKey_setKey_of (s : State) (key k : String) (v : Val)
    (h : containsKey s k = true) : containsKey (setKey s key v) k = true := by
  by_cases hk : k = key
  · subst hk
    simp [containsKey, lookupKey_setKey_self]
  · simpa [containsKey, lookupKey_setKey_ne _ _ _ _ hk] using h

/-- The key just assigned is present. -/
theorem containsKey_setKey_self (s : State) (key : String) (v : Val) :
    containsKey (setKey s key v) key = true := by
  simp [containsKey, lookupKey_setKey_self]

/-- `d.update(e)` keeps every key that was present. -/
theorem containsKey_updateDict_of (e : State) :
    ∀ (s : State) (k : String), containsKey s k = true →
      containsKey (updateDict s e) k = true := by
  induction e with
  | nil => intro s k h; exact h
  | cons p rest ih =>
    intro s k h
    obtain ⟨k', v⟩ := p
    exact ih (setKey s k' v) k (containsKey_setKey_of _ _ _ _ h)

/-! Condition-evaluator lemmas. -/

/-- Evaluating a `state.pop`-free expression leaves the state
untouched, whether the evaluation succeeds or raises: the state
component of the result is the supplied state. -/
theorem evalExpr_popFree_resState (e : PyExpr) :
    ∀ s : State, popFree e = true → resState (evalExpr e s) = s := by
  induction e with
  | lit w =>
    intro s _
    rfl
  | stateName =>
    intro s _
    rfl
  | subscript obj idx iho ihi =>
    intro s hpf
    simp only [popFree, Bool.and_eq_true] at hpf
    rw [evalExpr]
    cases ho : evalExpr obj s with
    | error p =>
      have h₁ := iho s hpf.1
      rw [ho] at h₁
      exact h₁
    | ok p =>
      obtain ⟨o, s₁⟩ := p
      have hs₁ : s₁ = s := by
        have h₁ := iho s hpf.1
        rw [ho] at h₁
        exact h₁
      dsimp only
      cases hi : evalExpr idx s₁ with
      | error q =>
        have h₂ := ihi s₁ hpf.2
        rw [hi] at h₂
        exact h₂.trans hs₁
      | ok q =>
        obtain ⟨i, s₂⟩ := q
        have hs₂ : s₂ = s₁ := by
          have h₂ := ihi s₁ hpf.2
          rw [hi] at h₂
          exact h₂
        dsimp only
        split
        · split
          · split
            · exact hs₂.trans hs₁
            · exact hs₂.trans hs₁
          · exact hs₂.trans hs₁
        · exact hs₂.trans hs₁
  | getItem obj key iho ihk =>
    intro s hpf
    simp only [popFree, Bool.and_eq_true] at hpf
    rw [evalExpr]
    cases ho : evalExpr obj s with
    | error p =>
      have h₁ := iho s hpf.1
      rw [ho] at h₁
      exact h₁
    | ok p =>
      obtain ⟨o, s₁⟩ := p
      have hs₁ : s₁ = s := by
        have h₁ := iho s hpf.1
        rw [ho] at h₁
        exact h₁
      dsimp only
      split
      · exact hs₁
      · cases hk : evalExpr key s₁ with
        | error q =>
          have h₂ := ihk s₁ hpf.2
          rw [hk] at h₂
          exact h₂.trans hs₁
        | ok q =>
          obtain ⟨k, s₂⟩ := q
          have hs₂ : s₂ = s₁ := by
            have h₂ := ihk s₁ hpf.2
            rw [hk] at h₂
            exact h₂
          dsimp only
          split
          · exact hs₂.trans hs₁
          · exact hs₂.trans hs₁
  | getItemD obj key dflt iho ihk ihd =>
    intro s hpf
    simp only [popFree, Bool.and_eq_true] at hpf
    rw [evalExpr]
    cases ho : evalExpr obj s with
    | error p =>
      have h₁ := iho s hpf.1.1
      rw [ho] at h₁
      exact h₁
    | ok p =>
      obtain ⟨o, s₁⟩ := p
      have hs₁ : s₁ = s := by
        have h₁ := iho s hpf.1.1
        rw [ho] at h₁
        exact h₁
      dsimp only
      split
      · exact hs₁
      · cases hk : evalExpr key s₁ with
        | error q =>
          have h₂ := ihk s₁ hpf.1.2
          rw [hk] at h₂
          exact h₂.trans hs₁
        | ok q =>
          obtain ⟨k, s₂⟩ := q
          have hs₂ : s₂ = s₁ := by
            have h₂ := ihk s₁ hpf.1.2
            rw [hk] at h₂
            exact h₂
          dsimp only
          cases hd : evalExpr dflt s₂ with
          | error r =>
            have h₃ := ihd s₂ hpf.2
            rw [hd] at h₃
            exact (h₃.trans hs₂).trans hs₁
          | ok r =>
            obtain ⟨dv, s₃⟩ := r
            have hs₃ : s₃ = s₂ := by
              have h₃ := ihd s₂ hpf.2
              rw [hd] at h₃
              exact h₃
            dsimp only
            split
            · exact (hs₃.trans hs₂).trans hs₁
            · exact (hs₃.trans hs₂).trans hs₁
  | popItem key ihk =>
    intro s hpf
    simp [popFree] at hpf
  | lenFn a iha =>
    intro s hpf
    rw [popFree] at hpf
    rw [evalExpr]
    cases ha : evalExpr a s with
    | error p =>
      have h₁ := iha s hpf
      rw [ha] at h₁
      exact h₁
    | ok p =>
      obtain ⟨va, s₁⟩ := p
      have hs₁ : s₁ = s := by
        have h₁ := iha s hpf
        rw [ha] at h₁
        exact h₁
      dsimp only
      split
      · exact hs₁
      · exact hs₁
  | intFn a iha =>
    intro s hpf
    rw [popFree] at hpf
    rw [evalExpr]
    cases ha : evalExpr a s with
    | error p =>
      have h₁ := iha s hpf
      rw [ha] at h₁
      exact h₁
    | ok p =>
      obtain ⟨va, s₁⟩ := p
      have hs₁ : s₁ = s := by
        have h₁ := iha s hpf
        rw [ha] at h₁
        exact h₁
      dsimp only
      split
      · exact hs₁
      · exact hs₁
  | strFn a iha =>
    intro s hpf
    rw [popFree] at hpf
    rw [evalExpr]
    cases ha : evalExpr a s with
    | error p =>
      have h₁ := iha s hpf
      rw [ha] at h₁
      exact h₁
    | ok p =>
      obtain ⟨va, s₁⟩ := p
      have hs₁ : s₁ = s := by
        have h₁ := iha s hpf
        rw [ha] at h₁
        exact h₁
      dsimp only
      split
      · exact hs₁
      · exact hs₁
  | boolFn a iha =>
    intro s hpf
    rw [popFree] at hpf
    rw [evalExpr]
    cases ha : evalExpr a s with
    | error p =>
      have h₁ := iha s hpf
      rw [ha] at h₁
      exact h₁
    | ok p =>
      obtain ⟨va, s₁⟩ := p
      have hs₁ : s₁ = s := by
        have h₁ := iha s hpf
        rw [ha] at h₁
        exact h₁
      exact hs₁
  | cmp op a b iha ihb =>
    intro s hpf
    simp only [popFree, Bool.and_eq_true] at hpf
    rw [evalExpr]
    cases ha : evalExpr a s with
    | error p =>
      have h₁ := iha s hpf.1
      rw [ha] at h₁
      exact h₁
    | ok p =>
      obtain ⟨va, s₁⟩ := p
      have hs₁ : s₁ = s := by
        have h₁ := iha s hpf.1
        rw [ha] at h₁
        exact h₁
      dsimp only
      cases hb : evalExpr b s₁ with
      | error q =>
        have h₂ := ihb s₁ hpf.2
        rw [hb] at h₂
        exact h₂.trans hs₁
      | ok q =>
        obtain ⟨vb, s₂⟩ := q
        have hs₂ : s₂ = s₁ := by
          have h₂ := ihb s₁ hpf.2
          rw [hb] at h₂
          exact h₂
        dsimp only
        split
        · exact hs₂.trans hs₁
        · exact hs₂.trans hs₁
  | andE a b iha ihb =>
    intro s hpf
    simp only [popFree, Bool.and_eq_true] at hpf
    rw [evalExpr]
    cases ha : evalExpr a s with
    | error p =>
      have h₁ := iha s hpf.1
      rw [ha] at h₁
      exact h₁
    | ok p =>
      obtain ⟨va, s₁⟩ := p
      have hs₁ : s₁ = s := by
        have h₁ := iha s hpf.1
        rw [ha] at h₁
        exact h₁
      dsimp only
      split
      · exact (ihb s₁ hpf.2).trans hs₁
      · exact hs₁
  | orE a b iha ihb =>
    intro s hpf
    simp only [popFree, Bool.and_eq_true] at hpf
    rw [evalExpr]
    cases ha : evalExpr a s with
    | error p =>
      have h₁ := iha s hpf.1
      rw [ha] at h₁
      exact h₁
    | ok p =>
      obtain ⟨va, s₁⟩ := p
      have hs₁ : s₁ = s := by
        have h₁ := iha s hpf.1
        rw [ha] at h₁
        exact h₁
      dsimp only
      split
      · exact hs₁
      · exact (ihb s₁ hpf.2).trans hs₁
  | notE a iha =>
    intro s hpf
    rw [popFree] at hpf
    rw [evalExpr]
    cases ha : evalExpr a s with
    | error p =>
      have h₁ := iha s hpf
      rw [ha] at h₁
      exact h₁
    | ok p =>
      obtain ⟨va, s₁⟩ := p
      have hs₁ : s₁ = s := by
        have h₁ := iha s hpf
        rw [ha] at h₁
        exact h₁
      exact hs₁

/-- Successful evaluation of a `state.pop`-free expression hands back
the supplied state. -/
theorem evalExpr_popFree_state (e : PyExpr) (s : State) (v : Val) (s' : State)
    (hpf : popFree e = true) (h : evalExpr e s = .ok (v, s')) : s' = s := by
  have hr := evalExpr_popFree_resState e s hpf
  rw [h] at hr
  exact hr

/-- A raise during evaluation of a `state.pop`-free expression carries
the supplied state unchanged. -/
theorem evalExpr_popFree_state_of_error (e : PyExpr) (s : State) (m : String)
    (s' : State) (hpf : popFree e = true) (h : evalExpr e s = .error (m, s')) :
    s' = s := by
  have hr := evalExpr_popFree_resState e s hpf
  rw [h] at hr
  exact hr

/-- A `condSafe` condition evaluates without mutating the supplied
state. -/
theorem evaluateCondition_state_of_condSafe (c : String) (s : State)
    (h : condSafe c = true) : (evaluateCondition c s).2 = s := by
  unfold evaluateCondition evalCondExc
  cases hp : parseCond c with
  | error e => rfl
  | ok e =>
    have hpf : popFree e = true := by
      unfold condSafe at h
      rw [hp] at h
      exact h
    dsimp only
    cases hv : evalExpr e s with
    | error p =>
      obtain ⟨m, s'⟩ := p
      exact evalExpr_popFree_state_of_error e s m s' hpf hv
    | ok p =>
      obtain ⟨v, s'⟩ := p
      exact evalExpr_popFree_state e s v s' hpf hv

/-- The `null`-tolerant condition slot shares the guarantee. -/
theorem evaluateConditionSlot_state_of_safe (c? : Option String) (s : State)
    (h : ∀ c, c? = some c → condSafe c = true) :
    (evaluateConditionSlot c? s).2 = s := by
  cases c? with
  | none => rfl
  | some c => exact evaluateCondition_state_of_condSafe c s (h c rfl)

/-- Multi-guard resolution over `condSafe` guards leaves the state
unchanged. -/
theorem resolveMulti_state_of_safe (entries : List (String × Option String)) :
    ∀ s : State, (∀ p ∈ entries, condSafe p.1 = true) →
      (resolveMulti entries s).2 = s := by
  induction entries with
  | nil => intro s _; rfl
  | cons p rest ih =>
    intro s hall
    obtain ⟨k, t⟩ := p
    have hk : condSafe k = true := hall (k, t) (List.mem_cons_self _ _)
    have hstate : (evaluateCondition k s).2 = s :=
      evaluateCondition_state_of_condSafe k s hk
    rw [resolveMulti, hstate]
    cases hb : (evaluateCondition k s).1 with
    | true => simp
    | false =>
      simp only [Bool.false_eq_true, if_false]
      exact ih s (fun q hq => hall q (List.mem_cons_of_mem _ hq))

/-- A configured loop condition of a `graphSafe` graph is `condSafe`. -/
theorem nodeConfig_loopCond_safe (g : GraphDefinition) (n : String)
    (hsafe : graphSafe g = true) (lc : String)
    (h : (getNodeConfig g n).loop_condition = some lc) : condSafe lc = true := by
  unfold graphSafe at hsafe
  rw [Bool.and_eq_true] at hsafe
  unfold getNodeConfig at h
  cases hcfgs : g.node_configs with
  | none => rw [hcfgs] at h; simp at h
  | some cfgs =>
    rw [hcfgs] at h
    dsimp only at h
    have hall := hsafe.2
    rw [hcfgs] at hall
    dsimp only at hall
    cases hlook : lookupKey cfgs n with
    | none => rw [hlook] at h; simp at h
    | some cfg =>
      rw [hlook] at h
      dsimp only at h
      have hmem := lookupKey_mem _ _ _ hlook
      rw [List.all_eq_true] at hall
      have hc := hall (n, cfg) hmem
      simpa [h] using hc

/-- Edge resolution in a `graphSafe` graph leaves the state
unchanged. -/
theorem resolveEdge_state_of_safe (g : GraphDefinition) (n : String) (s : State)
    (hsafe : graphSafe g = true) : (resolveEdge g n s).2 = s := by
  unfold resolveEdge
  cases he : lookupKey g.edges n with
  | none => rfl
  | some edge =>
    have hmem : (n, edge) ∈ g.edges := lookupKey_mem _ _ _ he
    have hedge : edgeSafe edge = true := by
      unfold graphSafe at hsafe
      rw [Bool.and_eq_true] at hsafe
      have hall := hsafe.1
      rw [List.all_eq_true] at hall
      exact hall (n, edge) hmem
    cases edge with
    | direct t => rfl
    | other => rfl
    | branch entries =>
      unfold edgeSafe at hedge
      rw [Bool.and_eq_true, List.all_eq_true] at hedge
      have hslot : (evaluateConditionSlot ((lookupKey entries "condition").join) s).2 = s := by
        apply evaluateConditionSlot_state_of_safe
        intro c hc
        have h1 := hedge.1
        rw [hc] at h1
        exact h1
      dsimp only
      by_cases hc : containsKey entries "condition" = true
      · rw [if_pos hc]
        by_cases hb :
            (evaluateConditionSlot ((lookupKey entries "condition").join) s).1 = true
        · rw [if_pos hb]
          exact hslot
        · rw [if_neg hb]
          exact hslot
      · rw [if_neg hc]
        exact resolveMulti_state_of_safe entries s (fun p hp => hedge.2 p hp)

/-- `_get_next_node` on a `graphSafe` graph, with the node's resolved
configuration, returns the state it was given. -/
theorem getNextNode_state_of_safe (g : GraphDefinition) (n : String) (s : State)
    (hsafe : graphSafe g = true) (nx : Option String) (s₂ : State)
    (h : getNextNode g n (getNodeConfig g n) s = .ok (nx, s₂)) : s₂ = s := by
  unfold getNextNode at h
  have hre : (resolveEdge g n s).2 = s := resolveEdge_state_of_safe g n s hsafe
  cases hl : isLoopish (getNodeConfig g n) with
  | false =>
    rw [hl] at h
    simp only [Bool.false_eq_true, if_false] at h
    injection h with h'
    have h2 := congrArg Prod.snd h'
    dsimp at h2
    rw [← h2]
    exact hre
  | true =>
    rw [hl] at h
    simp only [if_true] at h
    cases hiter : toNum (getKeyD s "iteration" (Val.int 0)) with
    | none => rw [hiter] at h; dsimp only at h; cases h
    | some i =>
      rw [hiter] at h; dsimp only at h
      by_cases hcap : i ≥ (getNodeConfig g n).max_iterations
      · rw [if_pos hcap] at h
        injection h with h'
        have h2 := congrArg Prod.snd h'
        dsimp at h2
        rw [← h2]
        exact hre
      · rw [if_neg hcap] at h
        cases hlc : (getNodeConfig g n).loop_condition with
        | none =>
          rw [hlc] at h; dsimp only at h
          injection h with h'
          have h2 := congrArg Prod.snd h'
          dsimp at h2
          rw [← h2]
          exact hre
        | some lc =>
          rw [hlc] at h; dsimp only at h
          have hcs : condSafe lc = true := nodeConfig_loopCond_safe g n hsafe lc hlc
          have hst : (evaluateCondition lc s).2 = s :=
            evaluateCondition_state_of_condSafe lc s hcs
          by_cases hemp : lc = ""
          · rw [if_pos hemp] at h
            injection h with h'
            have h2 := congrArg Prod.snd h'
            dsimp at h2
            rw [← h2]
            exact hre
          · rw [if_neg hemp] at h
            cases hb : (evaluateCondition lc s).1 with
            | true =>
              rw [hb] at h
              simp only [if_true] at h
              injection h with h'
              have h2 := congrArg Prod.snd h'
              dsimp at h2
              rw [← h2]
              exact hst
            | false =>
              rw [hb] at h
              simp only [Bool.false_eq_true, if_false] at h
              injection h with h'
              have h2 := congrArg Prod.snd h'
              dsimp at h2
              rw [← h2, hst]
              exact resolveEdge_state_of_safe g n s hsafe

/-! Engine lemmas. -/

/-- A node execution never removes a state key: the error path adds
`_error`, the merge path only assigns, the opaque path returns the
state unchanged. -/
theorem executeNode_contains (n : String) (cfg : Node) (reg : Registry)
    (s : State) (k : String) (h : containsKey s k = true) :
    containsKey (executeNode n cfg reg s).1 k = true := by
  unfold executeNode
  dsimp only
  split
  · exact containsKey_setKey_of _ _ _ _ h
  · split
    · exact containsKey_setKey_of _ _ _ _ h
    · exact containsKey_updateDict_of _ s k h
    · exact h

/-- One unfolding of the traversal loop at a nonempty node with budget
left: the step appends its trace entry — with the pre- and post-handler
snapshots and the handler's opaque output — and continues from the node
that `_get_next_node` picked from the post-handler state. -/
theorem execGo_step (g : GraphDefinition) (reg : Registry) (n : String)
    (s : State) (r : Nat) (hn : ¬n = "")
    (next : Option String) (s₂ : State)
    (hnx : getNextNode g n (getNodeConfig g n)
      (executeNode n (getNodeConfig g n) reg s).1 = .ok (next, s₂))
    (fs : State) (rest : List ExecutionLog)
    (hrec : execGo g reg next s₂ r = .ok (fs, rest)) :
    execGo g reg (some n) s (r + 1) =
      .ok (fs, { node := n, state_before := s,
                 state_after := (executeNode n (getNodeConfig g n) reg s).1,
                 output := (executeNode n (getNodeConfig g n) reg s).2 } :: rest) := by
  rw [execGo, if_neg hn, hnx]
  dsimp only
  rw [hrec]

/-- A state already carrying the `_error` marker still carries it when
the traversal loop of a `graphSafe` graph returns normally: handlers
and the runaway guard only add keys, and safe conditions do not touch
the state. -/
theorem execGo_error_persists (g : GraphDefinition) (reg : Registry)
    (hsafe : graphSafe g = true) :
    ∀ (rem : Nat) (c : Option String) (s : State),
      containsKey s "_error" = true →
      ∀ fs log, execGo g reg c s rem = .ok (fs, log) →
        containsKey fs "_error" = true := by
  intro rem
  induction rem with
  | zero =>
    intro c s hs fs log h
    cases c with
    | none => rw [execGo] at h; cases h; exact hs
    | some n =>
      rw [execGo] at h
      by_cases hn : n = ""
      · rw [if_pos hn] at h; cases h; exact hs
      · rw [if_neg hn] at h
        cases h
        exact containsKey_setKey_self _ _ _
  | succ r ih =>
    intro c s hs fs log h
    cases c with
    | none => rw [execGo] at h; cases h; exact hs
    | some n =>
      rw [execGo] at h
      by_cases hn : n = ""
      · rw [if_pos hn] at h; cases h; exact hs
      · rw [if_neg hn] at h
        cases hnx : getNextNode g n (getNodeConfig g n)
            (executeNode n (getNodeConfig g n) reg s).1 with
        | error e => rw [hnx] at h; cases h
        | ok p =>
          obtain ⟨next, s₂⟩ := p
          rw [hnx] at h
          dsimp only at h
          cases hrec : execGo g reg next s₂ r with
          | error e => rw [hrec] at h; cases h
          | ok q =>
            obtain ⟨fs', rest⟩ := q
            rw [hrec] at h
            dsimp only at h
            cases h
            have hs' : containsKey (executeNode n (getNodeConfig g n) reg s).1 "_error" = true :=
              executeNode_contains n (getNodeConfig g n) reg s "_error" hs
            have hs₂ : s₂ = (executeNode n (getNodeConfig g n) reg s).1 :=
              getNextNode_state_of_safe g n _ hsafe next s₂ hnx
            exact ih next s₂ (hs₂ ▸ hs') _ _ hrec

/-- The first trace entry a traversal produces, when there is one,
records the node the traversal started at. -/
theorem execGo_head_node (g : GraphDefinition) (reg : Registry)
    (c : Option String) (s : State) (rem : Nat) (fs : State)
    (log : List ExecutionLog) (h : execGo g reg c s rem = .ok (fs, log)) :
    log = [] ∨ ∃ n e rest, c = some n ∧ log = e :: rest ∧ e.node = n := by
  cases c with
  | none => rw [execGo] at h; cases h; left; rfl
  | some n =>
    cases rem with
    | zero =>
      rw [execGo] at h
      by_cases hn : n = ""
      · rw [if_pos hn] at h; cases h; left; rfl
      · rw [if_neg hn] at h; cases h; left; rfl
    | succ r =>
      rw [execGo] at h
      by_cases hn : n = ""
      · rw [if_pos hn] at h; cases h; left; rfl
      · rw [if_neg hn] at h
        cases hnx : getNextNode g n (getNodeConfig g n)
            (executeNode n (getNodeConfig g n) reg s).1 with
        | error e => rw [hnx] at h; cases h
        | ok p =>
          obtain ⟨next, s₂⟩ := p
          rw [hnx] at h
          dsimp only at h
          cases hrec : execGo g reg next s₂ r with
          | error e => rw [hrec] at h; cases h
          | ok q =>
            obtain ⟨fs', rest⟩ := q
            rw [hrec] at h
            dsimp only at h
            cases h
            right
            exact ⟨n, _, rest, rfl, rfl, rfl⟩

/-! The specification's claims. -/

/-- C4: `_evaluate_condition` is total — it hands its caller a boolean
and never lets an exception escape, because the whole evaluation sits
in a catch-all `try`/`except`.  In particular `"state['x'] >= 5"`
evaluates to `true` against `{x: 5}` and to `false` against the empty
state (the `KeyError` is caught); and whenever the underlying
evaluation raises — missing key without default, type mismatch,
malformed expression — the caught result is `false`.  The state the
caller continues with is the state at the moment of the raise: `eval`
runs in place on the caller's dictionary, so mutations performed by
subterms evaluated before the raising one survive the caught
exception. -/
theorem condition_evaluator_error_to_false (c : String) (s : State)
    (msg : String) (s' : State)
    (herr : evalCondExc c s = .error (msg, s')) :
    evaluateCondition "state['x'] >= 5" [("x", Val.int 5)] = (true, [("x", Val.int 5)])
  ∧ evaluateCondition "state['x'] >= 5" [] = (false, [])
  ∧ evaluateCondition c s = (false, s') := by
  refine ⟨rfl, rfl, ?_⟩
  unfold evaluateCondition
  rw [herr]

/-- C4 witness: the theorem at `"state.pop('x') >= state['y']"` against
`{x: 7}`: the `pop` removes `x` in place, the `state['y']` lookup then
raises a `KeyError`, and the caught result is `false` with the state as
the raise left it — empty, the earlier `pop` having survived. -/
theorem condition_evaluator_error_to_false_witness :
    evalCondExc "state.pop('x') >= state['y']" [("x", Val.int 7)]
      = .error ("KeyError: y", [])
  ∧ evaluateCondition "state.pop('x') >= state['y']" [("x", Val.int 7)]
      = (false, []) :=
  ⟨rfl, (condition_evaluator_error_to_false "state.pop('x') >= state['y']"
    [("x", Val.int 7)] "KeyError: y" [] rfl).2.2⟩

/-- C9 counterexample: the claim says condition evaluation "mutates
nothing", but the source evaluates with Python `eval` restricted only
by an emptied `__builtins__`, which still admits method calls on the
supplied state object: `state.pop('x')` against `{x: 7}` evaluates to
`7` (so the condition is `true`) and removes the key, leaving the
state empty — evaluation mutated the supplied state. -/
theorem condition_eval_mutation_counterexample :
    evaluateCondition "state.pop('x') >= 5" [("x", Val.int 7)] = (true, [])
  ∧ [("x", Val.int 7)] ≠ ([] : State) :=
  ⟨rfl, fun h => List.noConfusion h⟩

/-- C9 (amended): condition evaluation is deterministic — in the
embedding it is a pure function of the expression string and the
state, so two evaluations of the same expression on equal states agree
— and it is side-effect-free exactly for the conditions inside the
specification's expression grammar: for every condition string whose
parse is `state.pop`-free (`condSafe`, a decidable syntactic check),
the supplied state comes back unchanged.  The blanket "no side
effects, no arbitrary code execution" of the claim is refuted by
`state.pop` above, a consequence of the source's reliance on `eval`
that the specification's design notes (§9) themselves flag. -/
theorem condition_eval_pure_for_popfree (c : String) (s : State)
    (hsafe : condSafe c = true) :
    (evaluateCondition c s).2 = s :=
  evaluateCondition_state_of_condSafe c s hsafe

/-- C9 witness: the pop-free condition of the claim's own example
leaves its state untouched. -/
theorem condition_eval_pure_for_popfree_witness :
    condSafe "state['x'] >= 5" = true
  ∧ (evaluateCondition "state['x'] >= 5" [("x", Val.int 5)]).2 = [("x", Val.int 5)] :=
  ⟨rfl, condition_eval_pure_for_popfree "state['x'] >= 5" [("x", Val.int 5)] rfl⟩

/-- C6 (amended): graph creation never rejects a well-typed
definition.  `GraphDefinition` declares no validator and `create_graph`
only constructs and stores it, so no membership check relates
`start_node` or edge targets to `nodes`; the field typing that pydantic
does enforce is carried by the embedding's types themselves. -/
theorem create_graph_never_rejects (request : GraphCreateRequest) :
    createGraph request = .ok (GraphDefinition.mk request.nodes request.edges
      request.start_node request.node_configs) := rfl

/-- C6 counterexample: a definition whose start node is not a member of
its node set and whose edge target dangles is accepted at creation —
and it does reach traversal: the run executes one step (failing only
because the phantom start node has no registered tool, an error caught
per step) and is reported `failed`, not rejected. -/
theorem create_graph_no_validation_counterexample :
    createGraph badRequest = .ok badGraph
  ∧ badGraph.nodes.contains badGraph.start_node = false
  ∧ Except.map (fun r => (r.2.1.length, r.2.2)) (runGraph badGraph emptyReg [])
      = .ok (1, "failed") :=
  ⟨rfl, rfl, rfl⟩

/-- C8 (amended): for every graph whose nonempty-named start node has
no outgoing edge and no loop behaviour, and whose start handler does
not raise, the run terminates after exactly one step, with exactly one
trace entry carrying the step's snapshots and output; its status is
`"completed"` exactly when the final state lacks the `_error` marker —
which the hypothesis below demands, and which fails, for instance, when
the initial state already carries `_error` even though the handler
never raised (`single_step_completed_counterexample`). -/
theorem single_step_run (g : GraphDefinition) (reg : Registry) (s₀ : State)
    (hne : ¬g.start_node = "")
    (hloop : isLoopish (getNodeConfig g g.start_node) = false)
    (hedge : lookupKey g.edges g.start_node = Option.none)
    (h : Handler)
    (_hreg : regGet reg (toolNameOf (getNodeConfig g g.start_node) g.start_node) = some h)
    (v : Val) (_hok : h s₀ = .ok v) :
    executeGraph g reg s₀ =
      .ok ((executeNode g.start_node (getNodeConfig g g.start_node) reg s₀).1,
        [{ node := g.start_node, state_before := s₀,
           state_after := (executeNode g.start_node (getNodeConfig g g.start_node) reg s₀).1,
           output := (executeNode g.start_node (getNodeConfig g g.start_node) reg s₀).2 }])
  ∧ (containsKey (executeNode g.start_node (getNodeConfig g g.start_node) reg s₀).1
        "_error" = false →
      runGraph g reg s₀ =
        .ok ((executeNode g.start_node (getNodeConfig g g.start_node) reg s₀).1,
          [{ node := g.start_node, state_before := s₀,
             state_after := (executeNode g.start_node (getNodeConfig g g.start_node) reg s₀).1,
             output := (executeNode g.start_node (getNodeConfig g g.start_node) reg s₀).2 }],
          "completed")) := by
  have hnx : getNextNode g g.start_node (getNodeConfig g g.start_node)
      (executeNode g.start_node (getNodeConfig g g.start_node) reg s₀).1 =
      .ok (Option.none, (executeNode g.start_node (getNodeConfig g g.start_node) reg s₀).1) := by
    unfold getNextNode
    rw [hloop]
    simp only [Bool.false_eq_true, if_false]
    unfold resolveEdge
    rw [hedge]
  have hrun : executeGraph g reg s₀ =
      .ok ((executeNode g.start_node (getNodeConfig g g.start_node) reg s₀).1,
        [{ node := g.start_node, state_before := s₀,
           state_after := (executeNode g.start_node (getNodeConfig g g.start_node) reg s₀).1,
           output := (executeNode g.start_node (getNodeConfig g g.start_node) reg s₀).2 }]) := by
    unfold executeGraph deepcopy
    exact execGo_step g reg g.start_node s₀ 100 hne Option.none _ hnx _ [] rfl
  refine ⟨hrun, fun hclean => ?_⟩
  unfold runGraph
  rw [hrun]
  dsimp only
  unfold runStatus
  rw [hclean]
  rfl

/-- C8 witness: the single-node terminal graph with a clean initial
state completes in one step. -/
theorem single_step_run_witness :
    executeGraph soloGraph soloReg [] =
      .ok ([], [{ node := "A", state_before := [], state_after := [],
                  output := some Val.none }])
  ∧ runGraph soloGraph soloReg [] =
      .ok ([], [{ node := "A", state_before := [], state_after := [],
                  output := some Val.none }], "completed") := by
  have h := single_step_run soloGraph soloReg [] (by decide) rfl rfl
    (fun _ => .ok Val.none) rfl Val.none rfl
  exact ⟨h.1, h.2 rfl⟩

/-- C8 counterexample: the claim promises status `Completed` for every
initial state when the sole node's handler does not raise; but
`run_graph` computes the status from the presence of `_error` in the
final state, so an initial state that already carries `_error` yields
exactly one step and status `failed`. -/
theorem single_step_completed_counterexample :
    Except.map (fun r => (r.2.1.length, r.2.2))
      (runGraph soloGraph soloReg [("_error", Val.str "pre")]) = .ok (1, "failed")
  ∧ "failed" ≠ "completed" :=
  ⟨rfl, by decide⟩

/-- C5: the merge step of `_execute_node`, with the node's resolved
tool bound to handler `h`.  If the handler returns a mapping `d`, the
new state is exactly `state.update(d)`: every key of `d` is stored with
`d`'s value (keys of a Python dict are distinct, whence the `Nodup`
premise; existing keys are overwritten) and keys outside `d` are left
as they were; the step's output is `None`.  If the handler returns a
non-mapping value, the state is returned unchanged and the value is
the step's output — which the traversal loop stores verbatim in the
trace entry's `output` field, as the last conjunct shows on the loop
itself. -/
theorem handler_merge_semantics (n : String) (cfg : Node) (reg : Registry)
    (s : State) (h : Handler)
    (hreg : regGet reg (toolNameOf cfg n) = some h) :
    (∀ d, h s = .ok (Val.dict d) →
       executeNode n cfg reg s = (updateDict s d, Option.none)
       ∧ ((d.map Prod.fst).Nodup →
            ∀ k v, lookupKey d k = some v → lookupKey (updateDict s d) k = some v)
       ∧ (∀ k, lookupKey d k = Option.none →
            lookupKey (updateDict s d) k = lookupKey s k))
  ∧ (∀ v, h s = .ok v → (∀ d, v ≠ Val.dict d) →
       executeNode n cfg reg s = (s, some v))
  ∧ (∀ (g : GraphDefinition) (r : Nat) next s₂ fs rest, ¬n = "" →
       getNodeConfig g n = cfg →
       getNextNode g n cfg (executeNode n cfg reg s).1 = .ok (next, s₂) →
       execGo g reg next s₂ r = .ok (fs, rest) →
       execGo g reg (some n) s (r + 1) =
         .ok (fs, { node := n, state_before := s,
                    state_after := (executeNode n cfg reg s).1,
                    output := (executeNode n cfg reg s).2 } :: rest)) := by
  refine ⟨?_, ?_, ?_⟩
  · intro d hd
    refine ⟨?_, fun hnd k v hk => lookupKey_updateDict_mem d s k v hk hnd,
      fun k hk => lookupKey_updateDict_not_mem d s k hk⟩
    unfold executeNode
    dsimp only
    rw [hreg]
    dsimp only
    rw [hd]
  · intro v hv hnd
    unfold executeNode
    dsimp only
    rw [hreg]
    dsimp only
    rw [hv]
    cases v with
    | dict d => exact absurd rfl (hnd d)
    | none => rfl
    | bool b => rfl
    | int i => rfl
    | str t => rfl
    | list xs => rfl
  · intro g r next s₂ fs rest hne hcfg hnx hrec
    subst hcfg
    exact execGo_step g reg n s r hne next s₂ hnx fs rest hrec

/-- C5 witness: the theorem applied to `mergeGraph`'s two handlers — a
mapping-returning one (`M`) and an opaque one (`O`). -/
theorem handler_merge_semantics_witness :
    executeNode "M" (getNodeConfig mergeGraph "M") mergeReg [("v", Val.int 1)]
      = (updateDict [("v", Val.int 1)] [("v", Val.int 2), ("w", Val.int 3)], Option.none)
  ∧ lookupKey (updateDict [("v", Val.int 1)] [("v", Val.int 2), ("w", Val.int 3)]) "v"
      = some (Val.int 2)
  ∧ lookupKey (updateDict [("v", Val.int 1)] [("v", Val.int 2), ("w", Val.int 3)]) "x"
      = lookupKey [("v", Val.int 1)] "x"
  ∧ executeNode "O" (getNodeConfig mergeGraph "O") mergeReg [] = ([], some (Val.str "done")) := by
  have hM := (handler_merge_semantics "M" (getNodeConfig mergeGraph "M") mergeReg
    [("v", Val.int 1)] _ rfl).1 [("v", Val.int 2), ("w", Val.int 3)] rfl
  have hO := ((handler_merge_semantics "O" (getNodeConfig mergeGraph "O") mergeReg
    [] _ rfl).2.1 (Val.str "done") rfl (fun d hd => Val.noConfusion hd))
  exact ⟨hM.1, hM.2.1 (by decide) "v" (Val.int 2) rfl, hM.2.2 "x" rfl, hO⟩

/-- Guards that all evaluate to `False` walk the multi-guard list
without choosing a target, threading the state. -/
theorem resolveMulti_allFalse_append (pre : List (String × Option String))
    (s s₁ : State) (hall : AllFalse pre s s₁) :
    ∀ R, resolveMulti (pre ++ R) s = resolveMulti R s₁ := by
  induction hall with
  | nil s => intro R; rfl
  | cons k t rest s s' hk hrest ih =>
    intro R
    rw [List.cons_append, resolveMulti, hk]
    simp only [Bool.false_eq_true, if_false]
    exact ih R

/-- C7: multi-branch conditional edges.  For a non-loop node whose edge
is a guard dictionary without a `"condition"` key: guards are evaluated
in declaration order and the first one that evaluates true decides the
next node — the guards after it play no part (the conclusion does not
depend on `post`, and the returned state carries no effect of theirs:
short-circuit); if every guard evaluates false, the resolved next node
is `None` and the run terminates at this node. -/
theorem multi_branch_order_and_short_circuit
    (g : GraphDefinition) (n : String) (s : State)
    (entries : List (String × Option String))
    (hcfg : isLoopish (getNodeConfig g n) = false)
    (hedge : lookupKey g.edges n = some (Edge.branch entries))
    (hnc : containsKey entries "condition" = false) :
    (∀ pre guard target post s₁,
       entries = pre ++ (guard, target) :: post →
       AllFalse pre s s₁ → (evaluateCondition guard s₁).1 = true →
       getNextNode g n (getNodeConfig g n) s = .ok (target, (evaluateCondition guard s₁).2))
  ∧ (∀ sₑ, AllFalse entries s sₑ →
       getNextNode g n (getNodeConfig g n) s = .ok (Option.none, sₑ)) := by
  have hred : getNextNode g n (getNodeConfig g n) s = .ok (resolveMulti entries s) := by
    unfold getNextNode
    rw [hcfg]
    simp only [Bool.false_eq_true, if_false]
    unfold resolveEdge
    rw [hedge]
    dsimp only
    rw [hnc]
    rfl
  constructor
  · intro pre guard target post s₁ hsplit hpre hguard
    rw [hred, hsplit, resolveMulti_allFalse_append pre s s₁ hpre, resolveMulti, hguard]
    simp only [if_true]
  · intro sₑ hall
    have := resolveMulti_allFalse_append entries s sₑ hall []
    rw [List.append_nil] at this
    rw [hred, this]
    rfl

/-- C7 witness: on `multiGraph`'s three-guard edge with
`{a: 2, secret: 0}`, the first guard is false, the second true — the
next node is its target `Y` and the state is untouched: in particular
the third, mutating guard (`state.pop('secret')`) was never evaluated,
or the key `secret` would be gone. -/
theorem multi_branch_witness :
    getNextNode multiGraph "S" (getNodeConfig multiGraph "S")
      [("a", Val.int 2), ("secret", Val.int 0)]
      = .ok (some "Y", [("a", Val.int 2), ("secret", Val.int 0)]) := by
  have h := (multi_branch_order_and_short_circuit multiGraph "S"
    [("a", Val.int 2), ("secret", Val.int 0)] _ rfl rfl rfl).1
    [("state['a'] == 1", some "X")] "state['a'] == 2" (some "Y")
    [("state.pop('secret') == 0", some "Z")]
    [("a", Val.int 2), ("secret", Val.int 0)] rfl
    (AllFalse.cons _ _ _ _ _ rfl (AllFalse.nil _)) rfl
  exact h

/-- C3: a raising handler is caught at the step boundary.  (i) The step
does not abort: `_execute_node` returns normally with `_error` written
onto the state and no output.  (ii) The traversal loop still appends
the step's trace entry — before/after snapshots included — and hands
the error-tagged state to `_get_next_node`, whose pick of the next node
proceeds by the normal edge/condition logic.  (iii) Once the marker is
on the state, any normally-returning continuation of the run over a
`graphSafe` graph (conditions inside the specification's pop-free
grammar) keeps it, and the run is ultimately reported with status
`"failed"`. -/
theorem handler_error_step_and_run (g : GraphDefinition) (reg : Registry)
    (n : String) (s : State) (h : Handler) (msg : String)
    (hreg : regGet reg (toolNameOf (getNodeConfig g n) n) = some h)
    (hraise : h s = .error msg) :
    executeNode n (getNodeConfig g n) reg s =
      (setKey s "_error" (Val.str ("Error in node '" ++ n ++ "': " ++ msg)), Option.none)
  ∧ (∀ (r : Nat) next s₂ fs rest, ¬n = "" →
       getNextNode g n (getNodeConfig g n)
         (setKey s "_error" (Val.str ("Error in node '" ++ n ++ "': " ++ msg)))
         = .ok (next, s₂) →
       execGo g reg next s₂ r = .ok (fs, rest) →
       execGo g reg (some n) s (r + 1) =
         .ok (fs, { node := n, state_before := s,
                    state_after :=
                      setKey s "_error" (Val.str ("Error in node '" ++ n ++ "': " ++ msg)),
                    output := Option.none } :: rest))
  ∧ (graphSafe g = true → ¬n = "" →
       ∀ (r : Nat) fs log, execGo g reg (some n) s (r + 1) = .ok (fs, log) →
         containsKey fs "_error" = true ∧ runStatus fs = "failed") := by
  have hexec : executeNode n (getNodeConfig g n) reg s =
      (setKey s "_error" (Val.str ("Error in node '" ++ n ++ "': " ++ msg)), Option.none) := by
    unfold executeNode
    dsimp only
    rw [hreg]
    dsimp only
    rw [hraise]
  refine ⟨hexec, ?_, ?_⟩
  · intro r next s₂ fs rest hne hnx hrec
    have := execGo_step g reg n s r hne next s₂ (by rw [hexec]; exact hnx) fs rest hrec
    rw [hexec] at this
    exact this
  · intro hsafe hne r fs log hrun
    rw [execGo, if_neg hne] at hrun
    cases hnx : getNextNode g n (getNodeConfig g n)
        (executeNode n (getNodeConfig g n) reg s).1 with
    | error e => rw [hnx] at hrun; cases hrun
    | ok p =>
      obtain ⟨next, s₂⟩ := p
      rw [hnx] at hrun
      dsimp only at hrun
      cases hrec : execGo g reg next s₂ r with
      | error e => rw [hrec] at hrun; cases hrun
      | ok q =>
        obtain ⟨fs', rest⟩ := q
        rw [hrec] at hrun
        dsimp only at hrun
        cases hrun
        have hs' : containsKey (executeNode n (getNodeConfig g n) reg s).1 "_error" = true := by
          rw [hexec]
          exact containsKey_setKey_self s "_error" _
        have hs₂ : s₂ = (executeNode n (getNodeConfig g n) reg s).1 :=
          getNextNode_state_of_safe g n _ hsafe next s₂ hnx
        have hfs :=
          execGo_error_persists g reg hsafe r next s₂ (hs₂ ▸ hs') _ _ hrec
        refine ⟨hfs, ?_⟩
        unfold runStatus
        rw [hfs]
        rfl

/-- C3 witness: the theorem at `raiseGraph`, whose start handler raises
`"boom"`: the step is caught, the trace entry written, the next node
(`Y`) still resolved, and the completed run reports `failed`. -/
theorem handler_error_step_and_run_witness :
    executeNode "X" (getNodeConfig raiseGraph "X") raiseReg [] =
      (setKey [] "_error" (Val.str "Error in node 'X': boom"), Option.none)
  ∧ containsKey raiseRunFinal "_error" = true ∧ runStatus raiseRunFinal = "failed" := by
  have h := handler_error_step_and_run raiseGraph raiseReg "X" [] _ "boom" rfl rfl
  refine ⟨h.1, ?_⟩
  exact h.2.2 (by decide) (by decide) 100 raiseRunFinal raiseRunLog rfl

/-- Traversal of a plain cycle (every reachable node nonempty-named,
non-loop, with a `Direct` edge to another such node) runs its full
budget and ends at the runaway guard: one trace entry per budget unit
and the ceiling's `_error` message in the final state. -/
theorem execGo_cycle_aux (g : GraphDefinition) (reg : Registry) (P : String → Prop)
    (hstep : ∀ n, P n → ¬n = "" ∧ isLoopish (getNodeConfig g n) = false ∧
      ∃ t, lookupKey g.edges n = some (Edge.direct t) ∧ P t) :
    ∀ (rem : Nat) (n : String) (s : State), P n →
      ∃ fs log, execGo g reg (some n) s rem = .ok (fs, log) ∧
        log.length = rem ∧
        lookupKey fs "_error" = some (Val.str "Maximum iteration limit reached") := by
  intro rem
  induction rem with
  | zero =>
    intro n s hP
    obtain ⟨hne, -, -⟩ := hstep n hP
    refine ⟨setKey s "_error" (Val.str "Maximum iteration limit reached"), [],
      ?_, rfl, lookupKey_setKey_self _ _ _⟩
    rw [execGo, if_neg hne]
  | succ r ih =>
    intro n s hP
    obtain ⟨hne, hl, t, hedges, hPt⟩ := hstep n hP
    have hnx : getNextNode g n (getNodeConfig g n)
        (executeNode n (getNodeConfig g n) reg s).1 =
        .ok (some t, (executeNode n (getNodeConfig g n) reg s).1) := by
      unfold getNextNode
      rw [hl]
      simp only [Bool.false_eq_true, if_false]
      unfold resolveEdge
      rw [hedges]
    obtain ⟨fs, log, hrun, hlen, herr⟩ :=
      ih t ((executeNode n (getNodeConfig g n) reg s).1) hPt
    refine ⟨fs, _, execGo_step g reg n s r hne (some t) _ hnx fs log hrun, ?_, herr⟩
    simp [hlen]

/-- C1: a graph whose reachable edges form a plain cycle — `Direct`
edges between nonempty-named, non-loop nodes, e.g. two nodes pointing
at each other — terminates by the visit ceiling for every initial state
and every registry of handlers: exactly 101 trace entries are appended
(so at most 101 nodes are visited), the final state carries the
`_error` marker `"Maximum iteration limit reached"`, and the run's
status is `"failed"`.  `P` is the invariant set of nodes the cycle can
reach. -/
theorem plain_cycle_ceiling (g : GraphDefinition) (reg : Registry) (s₀ : State)
    (P : String → Prop) (hstart : P g.start_node)
    (hstep : ∀ n, P n → ¬n = "" ∧ isLoopish (getNodeConfig g n) = false ∧
      ∃ t, lookupKey g.edges n = some (Edge.direct t) ∧ P t) :
    ∃ fs log, runGraph g reg s₀ = .ok (fs, log, "failed") ∧ log.length = 101 ∧
      lookupKey fs "_error" = some (Val.str "Maximum iteration limit reached") := by
  obtain ⟨fs, log, hrun, hlen, herr⟩ :=
    execGo_cycle_aux g reg P hstep 101 g.start_node (deepcopy s₀) hstart
  refine ⟨fs, log, ?_, hlen, herr⟩
  unfold runGraph executeGraph
  rw [hrun]
  dsimp only
  unfold runStatus
  have hc : containsKey fs "_error" = true := by
    unfold containsKey
    rw [herr]
    rfl
  rw [hc]
  rfl

/-- C1 witness: the theorem at the concrete two-node cycle
`P -> Q -> P` with the empty initial state. -/
theorem plain_cycle_ceiling_witness :
    ∃ fs log, runGraph cycleGraph cycleReg [] = .ok (fs, log, "failed") ∧
      log.length = 101 ∧
      lookupKey fs "_error" = some (Val.str "Maximum iteration limit reached") := by
  apply plain_cycle_ceiling cycleGraph cycleReg []
    (fun n => n = "P" ∨ n = "Q") (Or.inl rfl)
  intro n hP
  cases hP with
  | inl hp =>
    subst hp
    exact ⟨by decide, rfl, "Q", rfl, Or.inr rfl⟩
  | inr hq =>
    subst hq
    exact ⟨by decide, rfl, "P", rfl, Or.inl rfl⟩

/-- The three outcomes of `_get_next_node` at a loop node whose
`state["iteration"]` reads as the integer `j`: fall through to edge
resolution (cap reached, loop condition absent or empty), revisit the
node (below cap, condition true), or fall through on the state the
condition evaluation left behind (below cap, condition false). -/
theorem getNextNode_loop_next (g : GraphDefinition) (L : String) (s' : State)
    (hloop : isLoopish (getNodeConfig g L) = true) (j : Int)
    (hj : iterInt s' = some j) :
    getNextNode g L (getNodeConfig g L) s' = .ok (resolveEdge g L s')
  ∨ (∃ lc, (getNodeConfig g L).loop_condition = some lc ∧
      j < (getNodeConfig g L).max_iterations ∧
      (evaluateCondition lc s').1 = true ∧
      getNextNode g L (getNodeConfig g L) s' =
        .ok (some L, (evaluateCondition lc s').2))
  ∨ (∃ lc, (getNodeConfig g L).loop_condition = some lc ∧
      (evaluateCondition lc s').1 = false ∧
      getNextNode g L (getNodeConfig g L) s' =
        .ok (resolveEdge g L (evaluateCondition lc s').2)) := by
  have hj' : toNum (getKeyD s' "iteration" (Val.int 0)) = some j := hj
  unfold getNextNode
  rw [hloop]
  simp only [if_true]
  rw [hj']
  dsimp only
  by_cases hcap : j ≥ (getNodeConfig g L).max_iterations
  · rw [if_pos hcap]
    exact Or.inl rfl
  · rw [if_neg hcap]
    cases hlc : (getNodeConfig g L).loop_condition with
    | none => exact Or.inl rfl
    | some lc =>
      dsimp only
      by_cases hemp : lc = ""
      · rw [if_pos hemp]
        exact Or.inl rfl
      · rw [if_neg hemp]
        cases hb : (evaluateCondition lc s').1 with
        | true =>
          rw [if_pos rfl]
          exact Or.inr (Or.inl ⟨lc, rfl, by omega, hb, rfl⟩)
        | false =>
          rw [if_neg Bool.false_ne_true]
          exact Or.inr (Or.inr ⟨lc, rfl, hb, rfl⟩)

/-- A leading visit block grows by one over an entry at the node. -/
theorem leadVisits_cons_self (L : String) (e : ExecutionLog) (he : e.node = L)
    (rest : List ExecutionLog) :
    leadVisits L (e :: rest) = 1 + leadVisits L rest := by
  unfold leadVisits
  rw [List.takeWhile_cons]
  have hbeq : (e.node == L) = true := by
    rw [he]
    exact beq_self_eq_true L
  rw [hbeq]
  simp [Nat.add_comm]

/-- A leading visit block is empty when the head entry is another
node's. -/
theorem leadVisits_cons_other (L : String) (e : ExecutionLog) (he : ¬e.node = L)
    (rest : List ExecutionLog) : leadVisits L (e :: rest) = 0 := by
  unfold leadVisits
  rw [List.takeWhile_cons]
  have hbeq : (e.node == L) = false := by
    rw [beq_eq_false_iff_ne]
    exact he
  rw [hbeq]
  rfl

/-- A traversal that continues at some node other than `L` contributes
nothing to `L`'s leading visit block. -/
theorem leadVisits_rest_zero (g : GraphDefinition) (reg : Registry) (L : String)
    (next : Option String) (s₂ : State) (r : Nat) (fs : State)
    (rest : List ExecutionLog) (hne : ¬next = some L)
    (hrec : execGo g reg next s₂ r = .ok (fs, rest)) :
    leadVisits L rest = 0 := by
  rcases execGo_head_node g reg next s₂ r fs rest hrec with
    hnil | ⟨n', e, rest', hc, hlog, hnode⟩
  · rw [hnil]
    rfl
  · subst hlog
    apply leadVisits_cons_other
    rw [hnode]
    intro hEq
    exact hne (by rw [hc, hEq])

/-- The consecutive-visit bound for a loop node whose handler advances
the iteration counter: entered with iteration `i ≥ 0` and any budget,
the leading block of visits to the node has length at most
`max m 1` whenever `(cap - i).toNat ≤ m`. -/
theorem loop_block_aux (g : GraphDefinition) (reg : Registry) (L : String)
    (hL : ¬L = "") (hloop : isLoopish (getNodeConfig g L) = true)
    (hinc : ∀ s i, iterInt s = some i →
      ∃ j, iterInt (executeNode L (getNodeConfig g L) reg s).1 = some j ∧ i + 1 ≤ j)
    (hself : ∀ s, ¬(resolveEdge g L s).1 = some L)
    (hlc : ∀ lc, (getNodeConfig g L).loop_condition = some lc → condSafe lc = true) :
    ∀ (m : Nat), ∀ (rem : Nat) (s : State) (i : Int), iterInt s = some i → 0 ≤ i →
      ((getNodeConfig g L).max_iterations - i).toNat ≤ m →
      ∀ fs log, execGo g reg (some L) s rem = .ok (fs, log) →
        leadVisits L log ≤ max m 1 := by
  intro m
  induction m using Nat.strong_induction_on with
  | _ m ihm =>
    intro rem s i hi h0 hm fs log h
    cases rem with
    | zero =>
      rw [execGo, if_neg hL] at h
      cases h
      exact Nat.zero_le _
    | succ r =>
      rw [execGo, if_neg hL] at h
      obtain ⟨j, hj, hij⟩ := hinc s i hi
      rcases getNextNode_loop_next g L
          ((executeNode L (getNodeConfig g L) reg s).1) hloop j hj with
        hcase | ⟨lc, hlcEq, hjlt, hb, hcase⟩ | ⟨lc, hlcEq, hb, hcase⟩
      · rcases hre : resolveEdge g L ((executeNode L (getNodeConfig g L) reg s).1) with ⟨nx, s₂⟩
        rw [hre] at hcase
        rw [hcase] at h
        dsimp only at h
        cases hrec : execGo g reg nx s₂ r with
        | error e => rw [hrec] at h; cases h
        | ok q =>
          obtain ⟨fs', rest⟩ := q
          rw [hrec] at h
          dsimp only at h
          cases h
          have hnx : ¬nx = some L := by
            have := hself ((executeNode L (getNodeConfig g L) reg s).1)
            rw [hre] at this
            exact this
          rw [leadVisits_cons_self L _ rfl rest,
            leadVisits_rest_zero g reg L nx s₂ r _ _ hnx hrec]
          exact Nat.le_max_right m 1
      · rw [hcase] at h
        dsimp only at h
        have hst : (evaluateCondition lc ((executeNode L (getNodeConfig g L) reg s).1)).2
            = (executeNode L (getNodeConfig g L) reg s).1 :=
          evaluateCondition_state_of_condSafe _ _ (hlc lc hlcEq)
        cases hrec : execGo g reg (some L)
            ((evaluateCondition lc ((executeNode L (getNodeConfig g L) reg s).1)).2) r with
        | error e => rw [hrec] at h; cases h
        | ok q =>
          obtain ⟨fs', rest⟩ := q
          rw [hrec] at h
          dsimp only at h
          cases h
          rw [hst] at hrec
          have hm2 : 2 ≤ m := by omega
          have hrest := ihm (m - 1) (by omega) r
            ((executeNode L (getNodeConfig g L) reg s).1) j hj (by omega)
            (by omega) _ _ hrec
          rw [leadVisits_cons_self L _ rfl rest]
          have hmax1 : max (m - 1) 1 = m - 1 := Nat.max_eq_left (by omega)
          have hmax2 : max m 1 = m := Nat.max_eq_left (by omega)
          omega
      · rcases hre : resolveEdge g L
            ((evaluateCondition lc ((executeNode L (getNodeConfig g L) reg s).1)).2) with ⟨nx, s₂⟩
        rw [hre] at hcase
        rw [hcase] at h
        dsimp only at h
        cases hrec : execGo g reg nx s₂ r with
        | error e => rw [hrec] at h; cases h
        | ok q =>
          obtain ⟨fs', rest⟩ := q
          rw [hrec] at h
          dsimp only at h
          cases h
          have hnx : ¬nx = some L := by
            have := hself ((evaluateCondition lc ((executeNode L (getNodeConfig g L) reg s).1)).2)
            rw [hre] at this
            exact this
          rw [leadVisits_cons_self L _ rfl rest,
            leadVisits_rest_zero g reg L nx s₂ r _ _ hnx hrec]
          exact Nat.le_max_right m 1

/-- C2 (amended): the iteration count `_get_next_node` compares with
the cap is `state["iteration"]` — a value maintained by handlers, not
an engine-internal counter.  (i) Once that value reaches the cap, the
loop branch is skipped regardless of the loop condition's truth value
and control falls through to edge resolution.  (ii) The claim's bound
"revisited at most N times" holds only with handler cooperation: if
every execution of the node's handler advances the integer iteration
counter by at least one, the node's edge never targets the node itself,
and its loop condition sits in the specification's pop-free grammar,
then a consecutive block of visits entered with iteration `i ≥ 0` has
length at most `max (N - i) 1` — from the conventional `iteration = 0`,
at most `max N 1` visits, i.e. at most `N` revisits.  Without the
handler's cooperation the bound fails: see the counterexample, where a
cap of 1 yields 101 visits. -/
theorem loop_cap_semantics (g : GraphDefinition) (reg : Registry) (L : String)
    (hL : ¬L = "") (hloop : isLoopish (getNodeConfig g L) = true) :
    (∀ s i, iterInt s = some i → i ≥ (getNodeConfig g L).max_iterations →
       getNextNode g L (getNodeConfig g L) s = .ok (resolveEdge g L s))
  ∧ ((∀ s i, iterInt s = some i →
        ∃ j, iterInt (executeNode L (getNodeConfig g L) reg s).1 = some j ∧ i + 1 ≤ j) →
     (∀ s, ¬(resolveEdge g L s).1 = some L) →
     (∀ lc, (getNodeConfig g L).loop_condition = some lc → condSafe lc = true) →
     ∀ (rem : Nat) (s : State) (i : Int), iterInt s = some i → 0 ≤ i →
       ∀ fs log, execGo g reg (some L) s rem = .ok (fs, log) →
         leadVisits L log ≤ max ((getNodeConfig g L).max_iterations - i).toNat 1) := by
  constructor
  · intro s i hi hcap
    have hi' : toNum (getKeyD s "iteration" (Val.int 0)) = some i := hi
    unfold getNextNode
    rw [hloop]
    simp only [if_true]
    rw [hi']
    dsimp only
    rw [if_pos hcap]
  · intro hinc hself hlc rem s i hi h0 fs log h
    exact loop_block_aux g reg L hL hloop hinc hself hlc _ rem s i hi h0
      (Nat.le_refl _) fs log h

/-- C2 counterexample: `runawayLoopGraph`'s loop node has
`max_iterations = 1`, but its handler never touches
`state["iteration"]`, so the stored counter stays 0 — forever below the
cap — and the always-true loop condition revisits the node until the
global ceiling ends the run: 101 consecutive visits to the node,
against a cap of 1, with the run reported `failed`.  The node is
revisited far more than `N` times, refuting the claim for arbitrary
handlers. -/
theorem loop_cap_counterexample :
    Except.map (fun r => (leadVisits "L" r.2.1, r.2.2))
      (runGraph runawayLoopGraph runawayLoopReg []) = .ok (101, "failed") := rfl

/-- C2 witness: the amended bound at the capped loop (cap 3,
incrementing handler): the run's leading block of visits to `L` is
within `max (3 - 0).toNat 1`. -/
theorem loop_cap_semantics_witness :
    execGo cappedLoopGraph cappedLoopReg (some "L") [] 101
      = .ok (cappedLoopFinal, cappedLoopLog)
  ∧ leadVisits "L" cappedLoopLog ≤ max ((3 : Int) - 0).toNat 1 := by
  constructor
  · rfl
  · refine (loop_cap_semantics cappedLoopGraph cappedLoopReg "L" (by decide) rfl).2
      ?_ ?_ ?_ 101 [] 0 rfl (by decide) cappedLoopFinal cappedLoopLog rfl
    · intro s i hi
      refine ⟨i + 1, ?_, le_refl _⟩
      have hexec : executeNode "L" (getNodeConfig cappedLoopGraph "L") cappedLoopReg s
          = (setKey s "iteration" (Val.int ((iterInt s).getD 0 + 1)), Option.none) := rfl
      rw [hexec, hi]
      dsimp only
      unfold iterInt getKeyD
      rw [lookupKey_setKey_self]
      rfl
    · intro s hcontra
      exact Option.noConfusion hcontra
    · intro lc hlcEq
      have : some "True" = some lc := hlcEq
      injection this with hT
      rw [← hT]
      rfl

end Workflow
